import Mathlib

/-!
Verification of the core of the `go-blockchainz` repository against its
natural-language specification.

The Go sources are shallowly embedded: Go byte slices (`[]byte`) become
`List Nat`, Go `int` becomes `Int`, Go strings become their byte sequences
(`List Nat`), functions that can call `log.Panic` (directly or through the
shared `Handle` helper) return `Option` with `none` standing for the panic,
and `map[string]T` becomes an association list.  The `nil` slice and the
empty non-nil slice of Go are both modelled as `[]`; no claim under study
distinguishes them.  Cryptographic primitives from the Go standard library
(SHA-256, RIPEMD-160, ECDSA) are abstracted as function parameters, since
no claim depends on the internals of those primitives.
-/

namespace Blockchainz

/-- Modify the element at index `i` of a list in place, as a Go slice
element assignment `l[i].f = v` does; out of range indices leave the list
unchanged (the embedding never uses an out-of-range index). -/
def listModify : List α → Nat → (α → α) → List α
  | [], _, _ => []
  | a :: as, 0, f => f a :: as
  | a :: as, i + 1, f => a :: listModify as i f

/-- Byte sequence of an ASCII string literal, the embedding of a Go string. -/
def strBytes (s : String) : List Nat := s.data.map Char.toNat

/-- Big-endian interpretation of a byte sequence, the embedding of
`big.Int.SetBytes` (and of the accumulation loop of `base58.Decode`). -/
def beNat (l : List Nat) : Nat := Nat.ofDigits 256 l.reverse

/-- Fuel-driven base-`b` digit extraction, least significant digit first.
Structurally recursive so that concrete instances evaluate by `decide`. -/
def natToDigitsAux (b : Nat) : Nat → Nat → List Nat
  | 0, _ => []
  | fuel + 1, n => if n = 0 then [] else n % b :: natToDigitsAux b fuel (n / b)

/-- Base-`b` digits of `n`, least significant first; agrees with
`Nat.digits` for `2 ≤ b` (proved below). -/
def natToDigits (b n : Nat) : List Nat := natToDigitsAux b n n

/-- Minimal big-endian byte representation of a natural number: the
embedding of `big.Int.Bytes`, which emits no leading zero bytes and is
empty for zero. -/
def bigIntBytes (n : Nat) : List Nat := (natToDigits 256 n).reverse

/-- Lowercase hexadecimal digit characters, as produced by Go `%x`. -/
def hexDigitChar (d : Nat) : Nat := if d < 10 then 48 + d else 87 + d

/-- Lowercase hex encoding of a byte sequence: the embedding of both
`hex.EncodeToString` and the `%x` formatting verb applied to a `[]byte`. -/
def hexEncode (l : List Nat) : List Nat :=
  l.flatMap fun b => [hexDigitChar (b / 16), hexDigitChar (b % 16)]

/-- Value of one hex digit character, upper or lower case accepted, as in
`encoding/hex`. -/
def hexDigitVal (c : Nat) : Option Nat :=
  if 48 ≤ c ∧ c ≤ 57 then some (c - 48)
  else if 97 ≤ c ∧ c ≤ 102 then some (c - 87)
  else if 65 ≤ c ∧ c ≤ 70 then some (c - 55)
  else none

/-- Embedding of `hex.DecodeString`: pairs of hex digit characters; odd
length or a non-hex character is an error. -/
def hexDecode : List Nat → Option (List Nat)
  | [] => some []
  | [_] => none
  | c1 :: c2 :: rest => do
    let h ← hexDigitVal c1
    let lo ← hexDigitVal c2
    let tail ← hexDecode rest
    pure ((h * 16 + lo) :: tail)

/-- Decimal rendering of a natural number, as Go `%d` prints it. -/
def natToDec (n : Nat) : List Nat :=
  if n = 0 then [48] else ((natToDigits 10 n).reverse).map (48 + ·)

/-- Decimal rendering of an integer, as Go `%d` prints it (`-` sign for
negative values). -/
def intToDec (i : Int) : List Nat :=
  if i < 0 then 45 :: natToDec (-i).toNat else natToDec i.toNat

/-! ## The transaction data model (`tx.go`, the transaction source file) -/

/-- Embedding of `TxInput`: a reference to a transaction output. -/
structure TxInput where
  id : List Nat
  out : Int
  signature : List Nat
  pubKey : List Nat
deriving DecidableEq, Repr

instance : Inhabited TxInput := ⟨⟨[], 0, [], []⟩⟩

/-- Embedding of `TxOutput`: a number of tokens and the hash of the public
key that may spend them. -/
structure TxOutput where
  value : Int
  pubKeyHash : List Nat
deriving DecidableEq, Repr

instance : Inhabited TxOutput := ⟨⟨0, []⟩⟩

/-- Embedding of `Transaction`. -/
structure Transaction where
  id : List Nat
  inputs : List TxInput
  outputs : List TxOutput
deriving DecidableEq, Repr

/-- The zero value of the Go `Transaction` type, produced by a lookup of a
missing key in a `map[string]Transaction`. -/
def zeroTx : Transaction := ⟨[], [], []⟩

instance : Inhabited Transaction := ⟨zeroTx⟩

/-- Lookup in the `map[string]Transaction` of previous transactions,
returning the zero `Transaction` when the key is absent, as a Go map
index expression does. -/
def lookupTx (prevs : List (List Nat × Transaction)) (k : List Nat) : Transaction :=
  match prevs.find? (fun p => p.1 == k) with
  | some p => p.2
  | none => zeroTx

/-- Embedding of `Transaction.IsCoinbase`. -/
def Transaction.IsCoinbase (tx : Transaction) : Bool :=
  tx.inputs.length == 1 && (tx.inputs.headD default).id.length == 0
    && (tx.inputs.headD default).out == -1

/-- Embedding of `Transaction.TrimmedCopy`: inputs keep `ID` and `Out` but
lose `Signature` and `PubKey`; outputs and the transaction id are kept. -/
def Transaction.TrimmedCopy (tx : Transaction) : Transaction :=
  { id := tx.id
    inputs := tx.inputs.map fun i => ⟨i.id, i.out, [], []⟩
    outputs := tx.outputs.map fun o => ⟨o.value, o.pubKeyHash⟩ }

/-- Embedding of `Transaction.String`: the textual rendering used by the
`fmt` package for `%v`-like verbs, one line per field, joined by newlines
with no trailing newline.  The field labels and spacing reproduce the
format strings of the source. -/
def Transaction.render (tx : Transaction) : List Nat :=
  let inputLines := fun (p : Nat × TxInput) =>
    [strBytes "     Input " ++ natToDec p.1 ++ strBytes ":",
     strBytes "       TXID:      " ++ hexEncode p.2.id,
     strBytes "       Out:       " ++ intToDec p.2.out,
     strBytes "       Signature: " ++ hexEncode p.2.signature,
     strBytes "       PubKey:    " ++ hexEncode p.2.pubKey]
  let outputLines := fun (p : Nat × TxOutput) =>
    [strBytes "     Output " ++ natToDec p.1 ++ strBytes ":",
     strBytes "       Value:  " ++ intToDec p.2.value,
     strBytes "       Script: " ++ hexEncode p.2.pubKeyHash]
  let lines :=
    [strBytes "--- Transaction " ++ hexEncode tx.id ++ strBytes ":"]
      ++ (tx.inputs.enum.flatMap inputLines)
      ++ (tx.outputs.enum.flatMap outputLines)
  List.intercalate [10] lines

/-- The byte string produced by `fmt.Sprintf` with format `%x\n` applied
to a `Transaction` value: `fmt` finds the `String() string` method of
`Transaction` (the `%x` verb is a string verb, so the `Stringer` interface
applies), hex-encodes the bytes of the resulting text, and appends the
newline of the format string. -/
def sprintfXNewline (tx : Transaction) : List Nat :=
  hexEncode tx.render ++ [10]

/-- Modify input `i` of a transaction, as the Go assignments
`tx.Inputs[i].Signature = ...` and `txCopy.Inputs[i].PubKey = ...` do. -/
def setInput (tx : Transaction) (i : Nat) (f : TxInput → TxInput) : Transaction :=
  { tx with inputs := listModify tx.inputs i f }

/-- Look up output `out` of a previous transaction, as the Go expression
`prevTX.Outputs[in.Out]` does; a negative or out-of-range index is a
run-time panic, modelled as `none`. -/
def getOutput (prev : Transaction) (out : Int) : Option TxOutput :=
  if out < 0 then none else prev.outputs[out.toNat]?

/-! ## Signing and verification (`Transaction.Sign`, `Transaction.Verify`)

ECDSA is abstracted: a signing oracle maps the message bytes to the byte
representations of `r` and `s` (the source concatenates `r.Bytes()` and
`s.Bytes()`), and a verification oracle receives the message bytes, the
numeric `(r, s)` pair and the numeric `(x, y)` public key coordinates,
exactly the values the source reconstructs with `big.Int.SetBytes`. -/

/-- Loop body of `Transaction.Sign`: iterate over the trimmed copy's
inputs (`rest`, starting at index `i`), threading the mutated trimmed
copy `txCopy` and the real transaction `tx`. -/
def signAux (oracle : List Nat → List Nat × List Nat)
    (prevs : List (List Nat × Transaction)) :
    List TxInput → Nat → Transaction → Transaction → Option Transaction
  | [], _, _, tx => some tx
  | inp :: rest, i, txCopy, tx =>
    let prevTX := lookupTx prevs (hexEncode inp.id)
    let txCopy := setInput txCopy i fun x => { x with signature := [] }
    match getOutput prevTX inp.out with
    | none => none
    | some o =>
      let txCopy := setInput txCopy i fun x => { x with pubKey := o.pubKeyHash }
      let dataToSign := sprintfXNewline txCopy
      let rs := oracle dataToSign
      let tx := setInput tx i fun x => { x with signature := rs.1 ++ rs.2 }
      let txCopy := setInput txCopy i fun x => { x with pubKey := [] }
      signAux oracle prevs rest (i + 1) txCopy tx

/-- Embedding of `Transaction.Sign`: a no-op on coinbase transactions;
panics (`none`) when a referenced previous transaction is missing (its
looked-up `ID` is empty); otherwise stores a signature on every input. -/
def Transaction.Sign (oracle : List Nat → List Nat × List Nat) (tx : Transaction)
    (prevs : List (List Nat × Transaction)) : Option Transaction :=
  if tx.IsCoinbase then some tx
  else if tx.inputs.all (fun inp => !(lookupTx prevs (hexEncode inp.id)).id.isEmpty) then
    signAux oracle prevs tx.TrimmedCopy.inputs 0 tx.TrimmedCopy tx
  else none

/-- Loop body of `Transaction.Verify`: iterate over the original inputs,
threading the mutated trimmed copy. -/
def verifyAux (vo : List Nat → Nat × Nat → Nat × Nat → Bool)
    (prevs : List (List Nat × Transaction)) :
    List TxInput → Nat → Transaction → Option Bool
  | [], _, _ => some true
  | inp :: rest, i, txCopy =>
    let prevTX := lookupTx prevs (hexEncode inp.id)
    let txCopy := setInput txCopy i fun x => { x with signature := [] }
    match getOutput prevTX inp.out with
    | none => none
    | some o =>
      let txCopy := setInput txCopy i fun x => { x with pubKey := o.pubKeyHash }
      let sigLen := inp.signature.length
      let r := beNat (inp.signature.take (sigLen / 2))
      let s := beNat (inp.signature.drop (sigLen / 2))
      let keyLen := inp.pubKey.length
      let x := beNat (inp.pubKey.take (keyLen / 2))
      let y := beNat (inp.pubKey.drop (keyLen / 2))
      let dataToVerify := sprintfXNewline txCopy
      if vo dataToVerify (r, s) (x, y) then
        verifyAux vo prevs rest (i + 1) (setInput txCopy i fun z => { z with pubKey := [] })
      else some false

/-- Embedding of `Transaction.Verify`: `true` for coinbase transactions;
panics (`none`) when a referenced previous transaction is missing;
otherwise checks each input's signature in order and returns `false` at
the first failure. -/
def Transaction.Verify (vo : List Nat → Nat × Nat → Nat × Nat → Bool) (tx : Transaction)
    (prevs : List (List Nat × Transaction)) : Option Bool :=
  if tx.IsCoinbase then some true
  else if tx.inputs.all (fun inp => !(lookupTx prevs (hexEncode inp.id)).id.isEmpty) then
    verifyAux vo prevs tx.inputs 0 tx.TrimmedCopy
  else none

/-! ## Claim-side description of the signing preimage -/

/-- The trimmed copy of `tx` in which only input `i` carries a public key,
namely the `PubKeyHash` of the output its reference points to.  This is
the state of `txCopy` at iteration `i` of the `Sign` and `Verify` loops. -/
def trimmedWithPub (tx : Transaction) (prevs : List (List Nat × Transaction))
    (i : Nat) : Transaction :=
  let inp := tx.inputs.getD i default
  let prevTX := lookupTx prevs (hexEncode inp.id)
  setInput tx.TrimmedCopy i fun x =>
    { x with pubKey := (prevTX.outputs.getD inp.out.toNat default).pubKeyHash }

/-- The byte string that `Sign` hands to the ECDSA signer, and that
`Verify` hands to the ECDSA verifier, for input `i`. -/
def signingPreimage (tx : Transaction) (prevs : List (List Nat × Transaction))
    (i : Nat) : List Nat :=
  sprintfXNewline (trimmedWithPub tx prevs i)

/-- Loop of `verifySpec`, mirroring `verifyAux` but describing each
message through `signingPreimage` instead of a threaded trimmed copy. -/
def verifySpecAux (vo : List Nat → Nat × Nat → Nat × Nat → Bool)
    (prevs : List (List Nat × Transaction)) (tx0 : Transaction) :
    List TxInput → Nat → Option Bool
  | [], _ => some true
  | inp :: rest, i =>
    match getOutput (lookupTx prevs (hexEncode inp.id)) inp.out with
    | none => none
    | some _ =>
      let sigLen := inp.signature.length
      let r := beNat (inp.signature.take (sigLen / 2))
      let s := beNat (inp.signature.drop (sigLen / 2))
      let keyLen := inp.pubKey.length
      let x := beNat (inp.pubKey.take (keyLen / 2))
      let y := beNat (inp.pubKey.drop (keyLen / 2))
      if vo (signingPreimage tx0 prevs i) (r, s) (x, y) then
        verifySpecAux vo prevs tx0 rest (i + 1)
      else some false

/-- Specification-shaped form of `Transaction.Verify`: for each input `i`,
the verified byte string is `signingPreimage tx prevs i`. -/
def verifySpec (vo : List Nat → Nat × Nat → Nat × Nat → Bool) (tx : Transaction)
    (prevs : List (List Nat × Transaction)) : Option Bool :=
  if tx.IsCoinbase then some true
  else if tx.inputs.all (fun inp => !(lookupTx prevs (hexEncode inp.id)).id.isEmpty) then
    verifySpecAux vo prevs tx tx.inputs 0
  else none

/-! ## Binary serialization (`Transaction.Serialize` via `encoding/gob`)

`Serialize` runs the value through a fresh `gob` encoder.  The model below
follows the gob wire format as documented for the Go standard library: an
unsigned integer below 128 is one byte, larger ones are a negated byte
count followed by minimal big-endian bytes; a signed integer is the
zig-zag folded unsigned integer; a byte slice is a length-prefixed byte
string; a struct is a sequence of (field-number delta, value) pairs that
omits zero-valued fields and ends with delta 0; a slice is an element
count followed by the encoded elements; the value is wrapped in a
length-prefixed message that begins with the type id (65, the first id a
fresh encoder assigns).  The type-descriptor messages a fresh encoder
emits before the value are a fixed, value-independent prefix of the
stream; they carry no information about the transaction and are omitted
here, with `DeserializeTransaction` adjusted accordingly. -/

/-- Gob encoding of an unsigned integer. -/
def uintEnc (n : Nat) : List Nat :=
  if n < 128 then [n] else (256 - (bigIntBytes n).length) :: bigIntBytes n

/-- Gob's zig-zag folding of a signed integer into an unsigned one. -/
def zigzag (i : Int) : Nat := if 0 ≤ i then 2 * i.toNat else 2 * (-i).toNat - 1

/-- Gob encoding of a signed integer. -/
def intEnc (i : Int) : List Nat := uintEnc (zigzag i)

/-- Gob encoding of a byte slice. -/
def bytesEnc (l : List Nat) : List Nat := uintEnc l.length ++ l

/-- Gob encoding of a struct body: each present field is encoded as the
delta from the previously sent field number followed by its payload
(`gap` is the delta the next present field would get), and the body ends
with delta 0. -/
def encFieldsAux : List (Option (List Nat)) → Nat → List Nat
  | [], _ => [0]
  | none :: rest, gap => encFieldsAux rest (gap + 1)
  | some payload :: rest, gap => uintEnc gap ++ payload ++ encFieldsAux rest 1

/-- Gob encoding of a struct from its optional field payloads (in field
number order, `none` for a zero-valued, omitted field). -/
def encFields (fs : List (Option (List Nat))) : List Nat := encFieldsAux fs 1

/-- Field payload of a byte-slice field (omitted when empty). -/
def optBytes (l : List Nat) : Option (List Nat) :=
  if l.isEmpty then none else some (bytesEnc l)

/-- Field payload of an int field (omitted when zero). -/
def optInt (i : Int) : Option (List Nat) :=
  if i = 0 then none else some (intEnc i)

/-- Field payload of a slice field (omitted when empty): element count,
then the encoded elements. -/
def optListOf (enc : α → List Nat) (l : List α) : Option (List Nat) :=
  if l.isEmpty then none else some (uintEnc l.length ++ (l.map enc).flatten)

/-- Gob encoding of a `TxInput` value (fields `ID`, `Out`, `Signature`,
`PubKey`). -/
def encTxInput (inp : TxInput) : List Nat :=
  encFields [optBytes inp.id, optInt inp.out, optBytes inp.signature, optBytes inp.pubKey]

/-- Gob encoding of a `TxOutput` value (fields `Value`, `PubKeyHash`). -/
def encTxOutput (o : TxOutput) : List Nat :=
  encFields [optInt o.value, optBytes o.pubKeyHash]

/-- Gob encoding of a `Transaction` value (fields `ID`, `Inputs`,
`Outputs`). -/
def encTransactionBody (tx : Transaction) : List Nat :=
  encFields [optBytes tx.id, optListOf encTxInput tx.inputs, optListOf encTxOutput tx.outputs]

/-- Embedding of `Transaction.Serialize`: the length-prefixed gob value
message (type id 65 followed by the struct body). -/
def Transaction.Serialize (tx : Transaction) : List Nat :=
  let body := intEnc 65 ++ encTransactionBody tx
  uintEnc body.length ++ body

/-- Embedding of `Transaction.Hash`: SHA-256 (abstracted as `sha`) of the
serialization of the transaction with its `ID` cleared. -/
def Transaction.Hash (sha : List Nat → List Nat) (tx : Transaction) : List Nat :=
  sha (Transaction.Serialize { tx with id := [] })

/-- Gob decoding of an unsigned integer. -/
def decodeUint : List Nat → Option (Nat × List Nat)
  | [] => none
  | b :: rest =>
    if b < 128 then some (b, rest)
    else if 256 - b ≤ rest.length then
      some (beNat (rest.take (256 - b)), rest.drop (256 - b))
    else none

/-- Inverse of the zig-zag folding. -/
def unzigzag (u : Nat) : Int :=
  if u % 2 = 0 then ((u / 2 : Nat) : Int) else -(((u + 1) / 2 : Nat) : Int)

/-- Gob decoding of a signed integer. -/
def decodeInt (l : List Nat) : Option (Int × List Nat) :=
  (decodeUint l).map fun p => (unzigzag p.1, p.2)

/-- Gob decoding of a byte slice. -/
def decodeBytes (l : List Nat) : Option (List Nat × List Nat) :=
  (decodeUint l).bind fun p =>
    if p.1 ≤ p.2.length then some (p.2.take p.1, p.2.drop p.1) else none

/-- Gob decoding of a `TxInput` struct body (fuelled field loop; `last` is
the previously seen field number). -/
def decTxInputAux : Nat → TxInput → Int → List Nat → Option (TxInput × List Nat)
  | 0, _, _, _ => none
  | fuel + 1, acc, last, l =>
    (decodeUint l).bind fun p =>
      if p.1 = 0 then some (acc, p.2)
      else
        let f : Int := last + p.1
        if f = 0 then
          (decodeBytes p.2).bind fun q => decTxInputAux fuel { acc with id := q.1 } f q.2
        else if f = 1 then
          (decodeInt p.2).bind fun q => decTxInputAux fuel { acc with out := q.1 } f q.2
        else if f = 2 then
          (decodeBytes p.2).bind fun q => decTxInputAux fuel { acc with signature := q.1 } f q.2
        else if f = 3 then
          (decodeBytes p.2).bind fun q => decTxInputAux fuel { acc with pubKey := q.1 } f q.2
        else none

/-- Gob decoding of a `TxInput`. -/
def decTxInput (l : List Nat) : Option (TxInput × List Nat) :=
  decTxInputAux 5 default (-1) l

/-- Gob decoding of a `TxOutput` struct body. -/
def decTxOutputAux : Nat → TxOutput → Int → List Nat → Option (TxOutput × List Nat)
  | 0, _, _, _ => none
  | fuel + 1, acc, last, l =>
    (decodeUint l).bind fun p =>
      if p.1 = 0 then some (acc, p.2)
      else
        let f : Int := last + p.1
        if f = 0 then
          (decodeInt p.2).bind fun q => decTxOutputAux fuel { acc with value := q.1 } f q.2
        else if f = 1 then
          (decodeBytes p.2).bind fun q => decTxOutputAux fuel { acc with pubKeyHash := q.1 } f q.2
        else none

/-- Gob decoding of a `TxOutput`. -/
def decTxOutput (l : List Nat) : Option (TxOutput × List Nat) :=
  decTxOutputAux 3 default (-1) l

/-- Gob decoding of a sequence of `k` values. -/
def decListOf (dec : List Nat → Option (α × List Nat)) :
    Nat → List Nat → Option (List α × List Nat)
  | 0, l => some ([], l)
  | k + 1, l =>
    (dec l).bind fun p => (decListOf dec k p.2).map fun q => (p.1 :: q.1, q.2)

/-- Gob decoding of a `Transaction` struct body. -/
def decTransactionAux : Nat → Transaction → Int → List Nat → Option (Transaction × List Nat)
  | 0, _, _, _ => none
  | fuel + 1, acc, last, l =>
    (decodeUint l).bind fun p =>
      if p.1 = 0 then some (acc, p.2)
      else
        let f : Int := last + p.1
        if f = 0 then
          (decodeBytes p.2).bind fun q => decTransactionAux fuel { acc with id := q.1 } f q.2
        else if f = 1 then
          (decodeUint p.2).bind fun c =>
            (decListOf decTxInput c.1 c.2).bind fun q =>
              decTransactionAux fuel { acc with inputs := q.1 } f q.2
        else if f = 2 then
          (decodeUint p.2).bind fun c =>
            (decListOf decTxOutput c.1 c.2).bind fun q =>
              decTransactionAux fuel { acc with outputs := q.1 } f q.2
        else none

/-- Embedding of `DeserializeTransaction`: reads the length-prefixed value
message, checks the type id, and decodes the struct body; any decoding
error is a panic through `Handle`, modelled as `none`. -/
def DeserializeTransaction (l : List Nat) : Option Transaction :=
  (decodeUint l).bind fun p =>
    if p.1 ≤ p.2.length then
      (decodeInt p.2).bind fun t =>
        if t.1 = 65 then (decTransactionAux 4 zeroTx (-1) t.2).map (·.1) else none
    else none

/-! ## Wallet, addresses and Base58 (`wallet.go`, the base58 wrapper) -/

/-- The Base58 alphabet of the `mr-tron/base58` library (Bitcoin
alphabet). -/
def b58Alphabet : List Nat :=
  strBytes "123456789ABCDEFGHJKLMNPQRSTUVWXYZabcdefghijkmnopqrstuvwxyz"

/-- Index of a character in the Base58 alphabet, `none` for a character
that is not in the alphabet. -/
def b58Digit (c : Nat) : Option Nat := List.findIdx? (fun a => a == c) b58Alphabet

/-- Embedding of `Base58Encode` (via `base58.Encode`): leading zero bytes
become leading `1` characters, the remainder is the base-58 numeral of the
big-endian value of the input. -/
def Base58Encode (input : List Nat) : List Nat :=
  let zeros := (input.takeWhile (· == 0)).length
  List.replicate zeros 49
    ++ ((natToDigits 58 (beNat input)).reverse.map fun d => b58Alphabet.getD d 0)

/-- Embedding of `Base58Decode` (via `base58.Decode`): an empty input or a
character outside the alphabet is an error, which the wallet wrapper turns
into a panic (`none`); leading `1` characters become leading zero bytes. -/
def Base58Decode (input : List Nat) : Option (List Nat) :=
  if input.isEmpty then none
  else
    (input.mapM b58Digit).map fun ds =>
      List.replicate (ds.takeWhile (· == 0)).length 0
        ++ bigIntBytes (Nat.ofDigits 58 ds.reverse)

/-- Embedding of `PublicKeyHash`: RIPEMD-160 of SHA-256 of the public key,
with both digest functions abstracted. -/
def PublicKeyHash (sha rip : List Nat → List Nat) (pubKey : List Nat) : List Nat :=
  rip (sha pubKey)

/-- Embedding of `Checksum`: the first `ChecksumLength = 4` bytes of the
double SHA-256 of the payload. -/
def Checksum (sha : List Nat → List Nat) (payload : List Nat) : List Nat :=
  (sha (sha payload)).take 4

/-- Embedding of `Wallet.Address`: Base58 of
`Version(0x00) || PublicKeyHash || Checksum`. -/
def Address (sha rip : List Nat → List Nat) (pubKey : List Nat) : List Nat :=
  let versionedHash := 0 :: PublicKeyHash sha rip pubKey
  Base58Encode (versionedHash ++ Checksum sha versionedHash)

/-- Embedding of `ValidateAddress`.  Every Go slicing step that can panic
is modelled as `none`: `Base58Decode` panics on malformed input, the
checksum slice needs at least 4 decoded bytes, and the
`pubKeyHash[1 : len-4]` slice needs at least 5. -/
def ValidateAddress (sha : List Nat → List Nat) (address : List Nat) : Option Bool :=
  (Base58Decode address).bind fun d =>
    if d.length < 4 then none
    else
      let actualChecksum := d.drop (d.length - 4)
      let version := d.headD 0
      if 1 ≤ d.length - 4 then
        let pubKeyHash := (d.take (d.length - 4)).drop 1
        some (actualChecksum == Checksum sha (version :: pubKeyHash))
      else none

/-- The P-256 field prime. -/
def p256P : Nat :=
  115792089210356248762697446949407573530086143415290314195533631308867097853951

/-- The P-256 curve coefficient `b`. -/
def p256B : Nat :=
  41058363725152142129326129780047268409114441015993725554835256314039467401291

/-- Affine points of the P-256 curve: `y² = x³ − 3x + b` over the field of
`p256P` elements. -/
def onCurveP256 (x y : Nat) : Prop :=
  x < p256P ∧ y < p256P ∧
    (y * y) % p256P = (x * x * x + (p256P - 3) * x + p256B) % p256P

instance (x y : Nat) : Decidable (onCurveP256 x y) := by
  unfold onCurveP256; infer_instance

/-- Embedding of the public key bytes built by `NewKeyPair`, namely
`append(private.PublicKey.X.Bytes(), private.PublicKey.Y.Bytes()...)`.
Modelled from `crypto/ecdsa`: `GenerateKey` returns a random non-zero
scalar together with the corresponding multiple of the base point, and
since P-256 has cofactor 1 the possible public keys are exactly the
affine points of the curve, described by `onCurveP256`. -/
def NewKeyPairPub (x y : Nat) : List Nat := bigIntBytes x ++ bigIntBytes y

/-! ## Transaction construction (`CoinbaseTx`, `NewTransaction`,
`NewTXOutput`) -/

/-- Embedding of `NewTXOutput` and `TxOutput.Lock`: decode the address and
keep the bytes strictly between the version byte and the 4 checksum bytes;
a decode failure or an address shorter than 5 decoded bytes panics. -/
def NewTXOutput (value : Int) (address : List Nat) : Option TxOutput :=
  (Base58Decode address).bind fun d =>
    if 1 ≤ d.length - 4 then some ⟨value, (d.take (d.length - 4)).drop 1⟩ else none

/-- Embedding of `CoinbaseTx`.  The 24 random bytes drawn when `data` is
empty are passed in as `randData` (the randomness is external to the
model); they are substituted hex-encoded, as `fmt.Sprintf` with verb `%x`
renders them. -/
def CoinbaseTx (sha : List Nat → List Nat) (randData : List Nat)
    (toAddr data : List Nat) : Option Transaction :=
  let data := if data.isEmpty then hexEncode randData else data
  (NewTXOutput 20 toAddr).map fun txout =>
    let tx : Transaction := ⟨[], [⟨[], -1, [], data⟩], [txout]⟩
    { tx with id := tx.Hash sha }

/-- The inputs built by `NewTransaction` from the spendable-output map:
one input per listed output index, carrying the hex-decoded transaction
id and the sender's public key; a malformed hex key panics. -/
def buildInputs (pubKey : List Nat) (validOutputs : List (List Nat × List Int)) :
    Option (List TxInput) :=
  (validOutputs.mapM fun p =>
      (hexDecode p.1).map fun txID => p.2.map fun out => TxInput.mk txID out [] pubKey).map
    List.flatten

/-- Embedding of `NewTransaction`.  The UTXO set (`UTXOSet`, whose source
is not part of the transaction file) is abstracted by the values its
`FindSpendableOutputs` call returns: the accumulated amount `acc` and the
spendable output map `validOutputs` in iteration order.  The final
`UTXO.Blockchain.SignTransaction` call is modelled from the spec:
`sign_transaction` gathers the referenced previous transactions and
delegates to `Transaction.Sign`, so the prev-tx map `prevs` is passed
through to `Sign` directly. -/
def NewTransaction (sha rip : List Nat → List Nat)
    (oracle : List Nat → List Nat × List Nat) (pubKey : List Nat)
    (prevs : List (List Nat × Transaction)) (toAddr : List Nat) (amount : Int)
    (acc : Int) (validOutputs : List (List Nat × List Int)) : Option Transaction :=
  if acc < amount then none
  else
    (buildInputs pubKey validOutputs).bind fun inputs =>
      let sender := Address sha rip pubKey
      (NewTXOutput amount toAddr).bind fun outTo =>
        (if amount < acc then
            (NewTXOutput (acc - amount) sender).map fun change => [outTo, change]
          else some [outTo]).bind fun outputs =>
          let tx : Transaction := ⟨[], inputs, outputs⟩
          Transaction.Sign oracle { tx with id := tx.Hash sha } prevs

/-! ## Merkle tree (`merkle.go`) -/

/-- One pass of the inner loop of `NewMerkleTree`: combine nodes `j` and
`j+1` for `j = 0, 2, 4, ...`; when a lone trailing node remains, the
access `nodes[j+1]` is an index-out-of-range panic, modelled as `none`. -/
def combineLevel (hash : List Nat → List Nat) : List (List Nat) → Option (List (List Nat))
  | [] => some []
  | [_] => none
  | a :: b :: rest => (combineLevel hash rest).map (hash (a ++ b) :: ·)

/-- The outer loop of `NewMerkleTree`, which runs a fixed number of
combination passes. -/
def merkleLoop (hash : List Nat → List Nat) :
    Nat → List (List Nat) → Option (List (List Nat))
  | 0, nodes => some nodes
  | k + 1, nodes => (combineLevel hash nodes).bind (merkleLoop hash k)

/-- Embedding of `NewMerkleTree` (root data only; the claims concern the
root).  The input is padded once, with its last element, when its length
is odd; leaves hash their datum; then exactly `len(data)/2` combination
passes run, and the root is `nodes[0]` — an empty final level is the
panic `none`. -/
def NewMerkleTree (hash : List Nat → List Nat) (data : List (List Nat)) :
    Option (List Nat) :=
  let data := if data.length % 2 ≠ 0 then data ++ [data.getLastD []] else data
  let nodes := data.map hash
  (merkleLoop hash (data.length / 2) nodes).bind fun nodes => nodes.head?

/-- Hash adjacent pairs of an (even-length) level. -/
def pairHash (hash : List Nat → List Nat) : List (List Nat) → List (List Nat)
  | a :: b :: rest => hash (a ++ b) :: pairHash hash rest
  | _ => []

/-- The recursive Merkle rule of the specification, on a level of already
hashed nodes: a single node is the root; an odd level duplicates its
trailing node; then adjacent pairs are hashed and the rule recurses. -/
def merkleRootSpecAux (hash : List Nat → List Nat) :
    Nat → List (List Nat) → Option (List Nat)
  | 0, _ => none
  | fuel + 1, level =>
    match level with
    | [] => none
    | [x] => some x
    | _ =>
      merkleRootSpecAux hash fuel
        (pairHash hash (if level.length % 2 ≠ 0 then level ++ [level.getLastD []] else level))

/-- The Merkle root described by the specification: leaves hash their
input, every odd level duplicates its trailing node, internal nodes hash
`left || right`, until a single root remains. -/
def merkleRootSpec (hash : List Nat → List Nat) (leaves : List (List Nat)) :
    Option (List Nat) :=
  merkleRootSpecAux hash leaves.length (leaves.map hash)

/-! ## Digit and byte-string lemmas -/

theorem natToDigitsAux_eq (b : Nat) (hb : 2 ≤ b) :
    ∀ fuel n, n ≤ fuel → natToDigitsAux b fuel n = Nat.digits b n := by
  intro fuel
  induction fuel with
  | zero =>
    intro n hn
    have : n = 0 := Nat.le_zero.mp hn
    subst this
    simp [natToDigitsAux]
  | succ k ih =>
    intro n hn
    by_cases h : n = 0
    · subst h; simp [natToDigitsAux]
    · have hdiv : n / b < n := Nat.div_lt_self (Nat.pos_of_ne_zero h) (by omega)
      rw [natToDigitsAux, if_neg h, ih (n / b) (by omega),
        Nat.digits_def' (by omega : 1 < b) (Nat.pos_of_ne_zero h)]

theorem natToDigits_eq {b : Nat} (hb : 2 ≤ b) (n : Nat) :
    natToDigits b n = Nat.digits b n :=
  natToDigitsAux_eq b hb n n (Nat.le_refl n)

theorem beNat_bigIntBytes (n : Nat) : beNat (bigIntBytes n) = n := by
  unfold beNat bigIntBytes
  rw [List.reverse_reverse, natToDigits_eq (by omega)]
  exact Nat.ofDigits_digits 256 n

theorem bigIntBytes_beNat {l : List Nat} (hlt : ∀ x ∈ l, x < 256)
    (hne : l ≠ []) (hhead : l.headD 0 ≠ 0) : bigIntBytes (beNat l) = l := by
  unfold beNat bigIntBytes
  rw [natToDigits_eq (by omega)]
  have hrev : ∀ x ∈ l.reverse, x < 256 := by simpa using hlt
  have hlast : ∀ h : l.reverse ≠ [], (l.reverse).getLast h ≠ 0 := by
    intro h
    rw [List.getLast_reverse]
    cases l with
    | nil => exact absurd rfl hne
    | cons a as => simpa using hhead
  rw [Nat.digits_ofDigits 256 (by omega) l.reverse hrev hlast, List.reverse_reverse]

theorem bigIntBytes_length_le {n e : Nat} (h : n < 256 ^ e) :
    (bigIntBytes n).length ≤ e := by
  unfold bigIntBytes natToDigits
  rw [List.length_reverse, natToDigitsAux_eq 256 (by omega) n n (Nat.le_refl n)]
  by_cases h0 : n = 0
  · subst h0; simp
  · have hb := Nat.base_pow_length_digits_le 256 n (by omega) h0
    have : (256 : Nat) ^ (Nat.digits 256 n).length < 256 ^ (e + 1) := by
      calc (256 : Nat) ^ (Nat.digits 256 n).length ≤ 256 * n := hb
        _ < 256 * 256 ^ e := by omega
        _ = 256 ^ (e + 1) := by ring
    have := (Nat.pow_lt_pow_iff_right (by omega : 1 < 256)).mp this
    omega

theorem lt_of_bigIntBytes_length_le {n e : Nat}
    (h : (bigIntBytes n).length ≤ e) : n < 256 ^ e := by
  unfold bigIntBytes natToDigits at h
  rw [List.length_reverse, natToDigitsAux_eq 256 (by omega) n n (Nat.le_refl n)] at h
  calc n < 256 ^ (Nat.digits 256 n).length := Nat.lt_base_pow_length_digits (by omega)
    _ ≤ 256 ^ e := Nat.pow_le_pow_right (by omega) h

theorem bigIntBytes_lt {n : Nat} : ∀ x ∈ bigIntBytes n, x < 256 := by
  intro x hx
  unfold bigIntBytes natToDigits at hx
  rw [natToDigitsAux_eq 256 (by omega) n n (Nat.le_refl n)] at hx
  exact Nat.digits_lt_base (by omega) (List.mem_reverse.mp hx)

theorem bigIntBytes_headD {n : Nat} (hn : n ≠ 0) :
    (bigIntBytes n).headD 0 ≠ 0 := by
  unfold bigIntBytes natToDigits
  rw [natToDigitsAux_eq 256 (by omega) n n (Nat.le_refl n)]
  have hne : Nat.digits 256 n ≠ [] := Nat.digits_ne_nil_iff_ne_zero.mpr hn
  have h1 : (Nat.digits 256 n).reverse.head? = some ((Nat.digits 256 n).getLast hne) := by
    rw [List.head?_reverse, List.getLast?_eq_getLast _ hne]
  rw [List.headD_eq_head?, h1]
  simpa using Nat.getLast_digit_ne_zero 256 hn

theorem bigIntBytes_ne_nil {n : Nat} (hn : n ≠ 0) : bigIntBytes n ≠ [] := by
  unfold bigIntBytes natToDigits
  rw [natToDigitsAux_eq 256 (by omega) n n (Nat.le_refl n)]
  simpa using Nat.digits_ne_nil_iff_ne_zero.mpr hn

/-! ## Base58 round trip -/

theorem beNat_cons_zero (l : List Nat) : beNat (0 :: l) = beNat l := by
  unfold beNat
  rw [List.reverse_cons, Nat.ofDigits_append]
  simp [Nat.ofDigits_singleton]

theorem beNat_ne_zero {a : Nat} {l : List Nat} (ha : a ≠ 0) : beNat (a :: l) ≠ 0 := by
  intro h
  unfold beNat at h
  exact ha (Nat.digits_zero_of_eq_zero (by omega) h a (by simp))

theorem base58Encode_cons_zero (l : List Nat) :
    Base58Encode (0 :: l) = 49 :: Base58Encode l := by
  unfold Base58Encode
  rw [beNat_cons_zero]
  simp [List.takeWhile_cons, List.replicate_succ]

theorem b58Digit_getD : ∀ d < 58, b58Digit (b58Alphabet.getD d 0) = some d := by decide

theorem mapM_b58Digit {ds : List Nat} (h : ∀ d ∈ ds, d < 58) :
    (ds.map fun d => b58Alphabet.getD d 0).mapM b58Digit = some ds := by
  induction ds with
  | nil => rfl
  | cons d rest ih =>
    simp only [List.map_cons, List.mapM_cons,
      b58Digit_getD d (h d (by simp)), ih (fun x hx => h x (by simp [hx])),
      Option.bind_eq_bind]
    rfl

theorem base58Encode_ne_nil {l : List Nat} (hne : l ≠ []) : Base58Encode l ≠ [] := by
  cases l with
  | nil => exact absurd rfl hne
  | cons a l2 =>
    by_cases ha : a = 0
    · subst ha; rw [base58Encode_cons_zero]; simp
    · have hn : beNat (a :: l2) ≠ 0 := beNat_ne_zero ha
      unfold Base58Encode
      intro h
      rw [List.append_eq_nil] at h
      have hmap := h.2
      rw [List.map_eq_nil_iff, List.reverse_eq_nil_iff, natToDigits_eq (by omega)] at hmap
      exact (Nat.digits_ne_nil_iff_ne_zero.mpr hn) hmap

theorem base58Decode_cons_one {xs : List Nat} (h : xs ≠ []) :
    Base58Decode (49 :: xs) = (Base58Decode xs).map (0 :: ·) := by
  unfold Base58Decode
  rw [if_neg (by simp), if_neg (by simpa using h)]
  rw [List.mapM_cons]
  have h49 : b58Digit 49 = some 0 := by decide
  rw [h49]
  cases hm : xs.mapM b58Digit with
  | none => rfl
  | some ds =>
    simp only [Option.bind_eq_bind, Option.some_bind, Option.map_some, Option.pure_def]
    simp [List.takeWhile_cons, List.replicate_succ, Nat.ofDigits_append,
      Nat.ofDigits_singleton]

theorem base58_roundtrip : ∀ {l : List Nat}, (∀ x ∈ l, x < 256) → l ≠ [] →
    Base58Decode (Base58Encode l) = some l := by
  intro l
  induction l with
  | nil => intro _ h; exact absurd rfl h
  | cons a l2 ih =>
    intro hlt _
    by_cases ha : a = 0
    · subst ha
      rw [base58Encode_cons_zero]
      by_cases h2 : l2 = []
      · subst h2; decide
      · rw [base58Decode_cons_one (base58Encode_ne_nil h2),
          ih (fun x hx => hlt x (by simp [hx])) h2]
        rfl
    · have hn : beNat (a :: l2) ≠ 0 := beNat_ne_zero ha
      have henc : Base58Encode (a :: l2)
          = (natToDigits 58 (beNat (a :: l2))).reverse.map fun d => b58Alphabet.getD d 0 := by
        unfold Base58Encode
        simp [List.takeWhile_cons, ha]
      rw [henc, natToDigits_eq (by omega : 2 ≤ 58)]
      set n := beNat (a :: l2) with hdefn
      have hddlt : ∀ d ∈ (Nat.digits 58 n).reverse, d < 58 := by
        intro d hd
        exact Nat.digits_lt_base (by omega) (List.mem_reverse.mp hd)
      have hdne : Nat.digits 58 n ≠ [] := Nat.digits_ne_nil_iff_ne_zero.mpr hn
      have hrevne : (Nat.digits 58 n).reverse ≠ [] := by simpa using hdne
      unfold Base58Decode
      rw [if_neg (by simpa using hrevne)]
      rw [mapM_b58Digit hddlt]
      have htw : ((Nat.digits 58 n).reverse).takeWhile (· == 0) = [] := by
        cases hds : (Nat.digits 58 n).reverse with
        | nil => rfl
        | cons d rest =>
          have hh : (Nat.digits 58 n).reverse.head? = some ((Nat.digits 58 n).getLast hdne) := by
            rw [List.head?_reverse, List.getLast?_eq_getLast _ hdne]
          rw [hds] at hh
          have : d = (Nat.digits 58 n).getLast hdne := by simpa using hh
          have hd0 : d ≠ 0 := this ▸ Nat.getLast_digit_ne_zero 58 hn
          simp [List.takeWhile_cons, hd0]
      simp only [Option.map_some', htw, List.length_nil, List.replicate_zero,
        List.reverse_reverse, Nat.ofDigits_digits, List.nil_append, Option.some.injEq]
      rw [hdefn, bigIntBytes_beNat hlt (by simp) (by simpa using ha)]

/-! ## Address lemmas -/

theorem address_bytes_lt (sha rip : List Nat → List Nat)
    (hsha : ∀ l, ∀ x ∈ sha l, x < 256) (hrip : ∀ l, ∀ x ∈ rip l, x < 256)
    (pk : List Nat) :
    ∀ x ∈ (0 :: PublicKeyHash sha rip pk)
        ++ Checksum sha (0 :: PublicKeyHash sha rip pk), x < 256 := by
  intro x hx
  rw [List.mem_append] at hx
  rcases hx with hx | hx
  · rcases List.mem_cons.mp hx with h0 | hP
    · omega
    · exact hrip _ _ hP
  · exact hsha _ _ (List.mem_of_mem_take hx)

theorem base58Decode_Address (sha rip : List Nat → List Nat)
    (hsha : ∀ l, ∀ x ∈ sha l, x < 256) (hrip : ∀ l, ∀ x ∈ rip l, x < 256)
    (pk : List Nat) :
    Base58Decode (Address sha rip pk)
      = some ((0 :: PublicKeyHash sha rip pk)
          ++ Checksum sha (0 :: PublicKeyHash sha rip pk)) := by
  unfold Address
  exact base58_roundtrip (address_bytes_lt sha rip hsha hrip pk) (by simp)

theorem NewTXOutput_Address (sha rip : List Nat → List Nat)
    (hsha : ∀ l, ∀ x ∈ sha l, x < 256) (hrip : ∀ l, ∀ x ∈ rip l, x < 256)
    (hlen : ∀ l, 4 ≤ (sha l).length) (v : Int) (pk : List Nat) :
    NewTXOutput v (Address sha rip pk) = some ⟨v, PublicKeyHash sha rip pk⟩ := by
  unfold NewTXOutput
  rw [base58Decode_Address sha rip hsha hrip pk]
  set P := PublicKeyHash sha rip pk with hP
  set C := Checksum sha (0 :: P) with hC
  have hClen : C.length = 4 := by
    rw [hC]; unfold Checksum; rw [List.length_take]; have := hlen (sha (0 :: P)); omega
  have hdlen : ((0 :: P) ++ C).length = P.length + 5 := by
    simp [hClen]
  rw [Option.some_bind]
  rw [if_pos (by omega)]
  have htake : (((0 :: P) ++ C).take (((0 :: P) ++ C).length - 4)) = 0 :: P := by
    have h1 : ((0 :: P) ++ C).length - 4 = (0 :: P).length := by
      simp at hdlen ⊢
      omega
    rw [h1, List.take_left]
  rw [htake]
  rfl

theorem validateAddress_Address (sha rip : List Nat → List Nat)
    (hsha : ∀ l, ∀ x ∈ sha l, x < 256) (hrip : ∀ l, ∀ x ∈ rip l, x < 256)
    (hlen : ∀ l, 4 ≤ (sha l).length) (pk : List Nat) :
    ValidateAddress sha (Address sha rip pk) = some true := by
  unfold ValidateAddress
  rw [base58Decode_Address sha rip hsha hrip pk]
  set P := PublicKeyHash sha rip pk with hP
  set C := Checksum sha (0 :: P) with hC
  have hClen : C.length = 4 := by
    rw [hC]; unfold Checksum; rw [List.length_take]; have := hlen (sha (0 :: P)); omega
  have hdlen : ((0 :: P) ++ C).length = P.length + 5 := by
    simp [hClen]
  rw [Option.some_bind]
  rw [if_neg (by omega)]
  rw [if_pos (by omega)]
  have hsub : ((0 :: P) ++ C).length - 4 = (0 :: P).length := by
    simp at hdlen ⊢; omega
  have htake : (((0 :: P) ++ C).take (((0 :: P) ++ C).length - 4)) = 0 :: P := by
    rw [hsub, List.take_left]
  have hdrop : (((0 :: P) ++ C).drop (((0 :: P) ++ C).length - 4)) = C := by
    rw [hsub, List.drop_left]
  rw [htake, hdrop]
  simp only [List.cons_append, List.headD_cons, List.drop_one, List.tail_cons]
  rw [← hC]
  simp

/-! ## Gob round-trip lemmas -/

theorem uintEnc_lt {n : Nat} (h : n < 128) : uintEnc n = [n] := by
  unfold uintEnc; rw [if_pos h]

theorem decodeUint_cons (b : Nat) (r : List Nat) :
    decodeUint (b :: r)
      = if b < 128 then some (b, r)
        else if 256 - b ≤ r.length then
          some (beNat (r.take (256 - b)), r.drop (256 - b))
        else none := rfl

theorem decodeUint_cons_lt {b : Nat} (h : b < 128) (r : List Nat) :
    decodeUint (b :: r) = some (b, r) := by
  rw [decodeUint_cons, if_pos h]

theorem decodeUint_uintEnc {n : Nat} (h : n < 256 ^ 127) (r : List Nat) :
    decodeUint (uintEnc n ++ r) = some (n, r) := by
  by_cases h128 : n < 128
  · rw [uintEnc_lt h128]
    exact decodeUint_cons_lt h128 r
  · have hne : bigIntBytes n ≠ [] := bigIntBytes_ne_nil (by omega)
    have hlen : (bigIntBytes n).length ≤ 127 := bigIntBytes_length_le h
    have hlen1 : 1 ≤ (bigIntBytes n).length := List.length_pos.mpr hne
    unfold uintEnc
    rw [if_neg h128, List.cons_append, decodeUint_cons]
    rw [if_neg (by omega)]
    have hsub : 256 - (256 - (bigIntBytes n).length) = (bigIntBytes n).length := by
      omega
    rw [hsub]
    rw [if_pos (by rw [List.length_append]; omega)]
    rw [List.take_left, List.drop_left, beNat_bigIntBytes]

theorem decodeBytes_bytesEnc {l : List Nat} (h : l.length < 256 ^ 127) (r : List Nat) :
    decodeBytes (bytesEnc l ++ r) = some (l, r) := by
  unfold bytesEnc decodeBytes
  rw [List.append_assoc, decodeUint_uintEnc h]
  simp only [Option.some_bind]
  rw [if_pos (by rw [List.length_append]; omega)]
  rw [List.take_left, List.drop_left]

theorem zigzag_unzigzag (i : Int) : unzigzag (zigzag i) = i := by
  unfold zigzag unzigzag
  by_cases h : 0 ≤ i
  · rw [if_pos h]
    have h2 : 2 * i.toNat % 2 = 0 := by omega
    rw [if_pos h2]
    omega
  · rw [if_neg h]
    have hk : 1 ≤ (-i).toNat := by omega
    have h2 : ¬((2 * (-i).toNat - 1) % 2 = 0) := by omega
    rw [if_neg h2]
    omega

theorem decodeInt_intEnc {i : Int} (h : zigzag i < 256 ^ 127) (r : List Nat) :
    decodeInt (intEnc i ++ r) = some (i, r) := by
  unfold intEnc decodeInt
  rw [decodeUint_uintEnc h]
  simp [zigzag_unzigzag]

/-! ## Struct decoder round trips -/

theorem decTxOutputAux_succ (fuel : Nat) (acc : TxOutput) (last : Int) (l : List Nat) :
    decTxOutputAux (fuel + 1) acc last l
      = (decodeUint l).bind fun p =>
          if p.1 = 0 then some (acc, p.2)
          else
            let f : Int := last + p.1
            if f = 0 then
              (decodeInt p.2).bind fun q => decTxOutputAux fuel { acc with value := q.1 } f q.2
            else if f = 1 then
              (decodeBytes p.2).bind fun q =>
                decTxOutputAux fuel { acc with pubKeyHash := q.1 } f q.2
            else none := rfl

theorem decTxInputAux_succ (fuel : Nat) (acc : TxInput) (last : Int) (l : List Nat) :
    decTxInputAux (fuel + 1) acc last l
      = (decodeUint l).bind fun p =>
          if p.1 = 0 then some (acc, p.2)
          else
            let f : Int := last + p.1
            if f = 0 then
              (decodeBytes p.2).bind fun q => decTxInputAux fuel { acc with id := q.1 } f q.2
            else if f = 1 then
              (decodeInt p.2).bind fun q => decTxInputAux fuel { acc with out := q.1 } f q.2
            else if f = 2 then
              (decodeBytes p.2).bind fun q =>
                decTxInputAux fuel { acc with signature := q.1 } f q.2
            else if f = 3 then
              (decodeBytes p.2).bind fun q => decTxInputAux fuel { acc with pubKey := q.1 } f q.2
            else none := rfl

theorem decTransactionAux_succ (fuel : Nat) (acc : Transaction) (last : Int) (l : List Nat) :
    decTransactionAux (fuel + 1) acc last l
      = (decodeUint l).bind fun p =>
          if p.1 = 0 then some (acc, p.2)
          else
            let f : Int := last + p.1
            if f = 0 then
              (decodeBytes p.2).bind fun q => decTransactionAux fuel { acc with id := q.1 } f q.2
            else if f = 1 then
              (decodeUint p.2).bind fun c =>
                (decListOf decTxInput c.1 c.2).bind fun q =>
                  decTransactionAux fuel { acc with inputs := q.1 } f q.2
            else if f = 2 then
              (decodeUint p.2).bind fun c =>
                (decListOf decTxOutput c.1 c.2).bind fun q =>
                  decTransactionAux fuel { acc with outputs := q.1 } f q.2
            else none := rfl
theorem decTxOutput_enc {o : TxOutput} (hv : zigzag o.value < 256 ^ 127)
    (hp : o.pubKeyHash.length < 256 ^ 127) (r : List Nat) :
    decTxOutput (encTxOutput o ++ r) = some (o, r) := by
  obtain ⟨v, ph⟩ := o
  simp only at hv hp
  unfold decTxOutput
  by_cases h1 : v = 0 <;> by_cases h2 : ph = []
  · subst h1; subst h2; rfl
  · subst h1
    have hb : ph.isEmpty = false := by simpa using h2
    simp only [encTxOutput, encFields, optInt, optBytes, if_pos rfl, hb,
      Bool.false_eq_true, if_false, encFieldsAux,
      uintEnc_lt (by norm_num : (2:Nat) < 128)]
    simp only [List.append_assoc, List.cons_append, List.nil_append]
    rw [decTxOutputAux_succ, decodeUint_cons_lt (by norm_num)]
    simp only [Option.some_bind]
    rw [if_neg (by norm_num)]
    norm_num
    rw [decodeBytes_bytesEnc hp]
    simp only [Option.some_bind]
    rw [decTxOutputAux_succ, decodeUint_cons_lt (by norm_num)]
    simp only [Option.some_bind]
    simp [Inhabited.default]
  · subst h2
    simp only [encTxOutput, encFields, optInt, optBytes, if_neg h1, List.isEmpty_nil,
      if_pos rfl, encFieldsAux, uintEnc_lt (by norm_num : (1:Nat) < 128)]
    simp only [List.append_assoc, List.cons_append, List.nil_append]
    rw [decTxOutputAux_succ, decodeUint_cons_lt (by norm_num)]
    simp only [Option.some_bind]
    rw [if_neg (by norm_num)]
    norm_num
    rw [decodeInt_intEnc hv]
    simp only [Option.some_bind]
    rw [decTxOutputAux_succ, decodeUint_cons_lt (by norm_num)]
    simp only [Option.some_bind]
    simp [Inhabited.default]
  · have hb : ph.isEmpty = false := by simpa using h2
    simp only [encTxOutput, encFields, optInt, optBytes, if_neg h1, hb,
      Bool.false_eq_true, if_false, encFieldsAux,
      uintEnc_lt (by norm_num : (1:Nat) < 128)]
    simp only [List.append_assoc, List.cons_append, List.nil_append]
    rw [decTxOutputAux_succ, decodeUint_cons_lt (by norm_num)]
    simp only [Option.some_bind]
    rw [if_neg (by norm_num)]
    norm_num
    rw [decodeInt_intEnc hv]
    simp only [Option.some_bind]
    rw [decTxOutputAux_succ, decodeUint_cons_lt (by norm_num)]
    simp only [Option.some_bind]
    rw [if_neg (by norm_num)]
    norm_num
    rw [decodeBytes_bytesEnc hp]
    simp only [Option.some_bind]
    rw [decTxOutputAux_succ, decodeUint_cons_lt (by norm_num)]
    simp only [Option.some_bind]
    simp [Inhabited.default]

theorem decTxInput_enc {inp : TxInput} (hid : inp.id.length < 256 ^ 127)
    (hout : zigzag inp.out < 256 ^ 127) (hsig : inp.signature.length < 256 ^ 127)
    (hpk : inp.pubKey.length < 256 ^ 127) (r : List Nat) :
    decTxInput (encTxInput inp ++ r) = some (inp, r) := by
  obtain ⟨id, out, sig, pk⟩ := inp
  simp only at hid hout hsig hpk
  unfold decTxInput
  by_cases h1 : id = [] <;> by_cases h2 : out = 0 <;> by_cases h3 : sig = [] <;>
    by_cases h4 : pk = []
  · subst h1; subst h2; subst h3; subst h4; rfl
  · subst h1
    subst h2
    subst h3
    have hb3 : pk.isEmpty = false := by simpa using h4
    simp only [encTxInput,
      encFields,
      optInt,
      optBytes,
      List.isEmpty_nil,
      if_pos rfl,
      hb3,
      Bool.false_eq_true,
      if_false,
      encFieldsAux,
      uintEnc_lt (by norm_num : (4:Nat) < 128)]
    simp only [List.append_assoc, List.cons_append, List.nil_append]
    rw [decTxInputAux_succ, decodeUint_cons_lt (by norm_num)]
    simp only [Option.some_bind]
    rw [if_neg (by norm_num)]
    norm_num
    rw [decodeBytes_bytesEnc hpk]
    simp only [Option.some_bind]
    rw [decTxInputAux_succ, decodeUint_cons_lt (by norm_num)]
    simp only [Option.some_bind]
    simp [Inhabited.default]
  · subst h1
    subst h2
    subst h4
    have hb2 : sig.isEmpty = false := by simpa using h3
    simp only [encTxInput,
      encFields,
      optInt,
      optBytes,
      List.isEmpty_nil,
      if_pos rfl,
      hb2,
      Bool.false_eq_true,
      if_false,
      encFieldsAux,
      uintEnc_lt (by norm_num : (3:Nat) < 128)]
    simp only [List.append_assoc, List.cons_append, List.nil_append]
    rw [decTxInputAux_succ, decodeUint_cons_lt (by norm_num)]
    simp only [Option.some_bind]
    rw [if_neg (by norm_num)]
    norm_num
    rw [decodeBytes_bytesEnc hsig]
    simp only [Option.some_bind]
    rw [decTxInputAux_succ, decodeUint_cons_lt (by norm_num)]
    simp only [Option.some_bind]
    simp [Inhabited.default]
  · subst h1
    subst h2
    have hb2 : sig.isEmpty = false := by simpa using h3
    have hb3 : pk.isEmpty = false := by simpa using h4
    simp only [encTxInput,
      encFields,
      optInt,
      optBytes,
      List.isEmpty_nil,
      if_pos rfl,
      hb2,
      Bool.false_eq_true,
      if_false,
      hb3,
      encFieldsAux,
      uintEnc_lt (by norm_num : (1:Nat) < 128),
      uintEnc_lt (by norm_num : (3:Nat) < 128)]
    simp only [List.append_assoc, List.cons_append, List.nil_append]
    rw [decTxInputAux_succ, decodeUint_cons_lt (by norm_num)]
    simp only [Option.some_bind]
    rw [if_neg (by norm_num)]
    norm_num
    rw [decodeBytes_bytesEnc hsig]
    simp only [Option.some_bind]
    rw [decTxInputAux_succ, decodeUint_cons_lt (by norm_num)]
    simp only [Option.some_bind]
    rw [if_neg (by norm_num)]
    norm_num
    rw [decodeBytes_bytesEnc hpk]
    simp only [Option.some_bind]
    rw [decTxInputAux_succ, decodeUint_cons_lt (by norm_num)]
    simp only [Option.some_bind]
    simp [Inhabited.default]
  · subst h1
    subst h3
    subst h4
    simp only [encTxInput,
      encFields,
      optInt,
      optBytes,
      List.isEmpty_nil,
      if_pos rfl,
      if_neg h2,
      encFieldsAux,
      uintEnc_lt (by norm_num : (2:Nat) < 128)]
    simp only [List.append_assoc, List.cons_append, List.nil_append]
    rw [decTxInputAux_succ, decodeUint_cons_lt (by norm_num)]
    simp only [Option.some_bind]
    rw [if_neg (by norm_num)]
    norm_num
    rw [decodeInt_intEnc hout]
    simp only [Option.some_bind]
    rw [decTxInputAux_succ, decodeUint_cons_lt (by norm_num)]
    simp only [Option.some_bind]
    simp [Inhabited.default]
  · subst h1
    subst h3
    have hb3 : pk.isEmpty = false := by simpa using h4
    simp only [encTxInput,
      encFields,
      optInt,
      optBytes,
      List.isEmpty_nil,
      if_pos rfl,
      if_neg h2,
      hb3,
      Bool.false_eq_true,
      if_false,
      encFieldsAux,
      uintEnc_lt (by norm_num : (2:Nat) < 128)]
    simp only [List.append_assoc, List.cons_append, List.nil_append]
    rw [decTxInputAux_succ, decodeUint_cons_lt (by norm_num)]
    simp only [Option.some_bind]
    rw [if_neg (by norm_num)]
    norm_num
    rw [decodeInt_intEnc hout]
    simp only [Option.some_bind]
    rw [decTxInputAux_succ, decodeUint_cons_lt (by norm_num)]
    simp only [Option.some_bind]
    rw [if_neg (by norm_num)]
    norm_num
    rw [decodeBytes_bytesEnc hpk]
    simp only [Option.some_bind]
    rw [decTxInputAux_succ, decodeUint_cons_lt (by norm_num)]
    simp only [Option.some_bind]
    simp [Inhabited.default]
  · subst h1
    subst h4
    have hb2 : sig.isEmpty = false := by simpa using h3
    simp only [encTxInput,
      encFields,
      optInt,
      optBytes,
      List.isEmpty_nil,
      if_pos rfl,
      if_neg h2,
      hb2,
      Bool.false_eq_true,
      if_false,
      encFieldsAux,
      uintEnc_lt (by norm_num : (1:Nat) < 128),
      uintEnc_lt (by norm_num : (2:Nat) < 128)]
    simp only [List.append_assoc, List.cons_append, List.nil_append]
    rw [decTxInputAux_succ, decodeUint_cons_lt (by norm_num)]
    simp only [Option.some_bind]
    rw [if_neg (by norm_num)]
    norm_num
    rw [decodeInt_intEnc hout]
    simp only [Option.some_bind]
    rw [decTxInputAux_succ, decodeUint_cons_lt (by norm_num)]
    simp only [Option.some_bind]
    rw [if_neg (by norm_num)]
    norm_num
    rw [decodeBytes_bytesEnc hsig]
    simp only [Option.some_bind]
    rw [decTxInputAux_succ, decodeUint_cons_lt (by norm_num)]
    simp only [Option.some_bind]
    simp [Inhabited.default]
  · subst h1
    have hb2 : sig.isEmpty = false := by simpa using h3
    have hb3 : pk.isEmpty = false := by simpa using h4
    simp only [encTxInput,
      encFields,
      optInt,
      optBytes,
      List.isEmpty_nil,
      if_pos rfl,
      if_neg h2,
      hb2,
      Bool.false_eq_true,
      if_false,
      hb3,
      encFieldsAux,
      uintEnc_lt (by norm_num : (1:Nat) < 128),
      uintEnc_lt (by norm_num : (2:Nat) < 128)]
    simp only [List.append_assoc, List.cons_append, List.nil_append]
    rw [decTxInputAux_succ, decodeUint_cons_lt (by norm_num)]
    simp only [Option.some_bind]
    rw [if_neg (by norm_num)]
    norm_num
    rw [decodeInt_intEnc hout]
    simp only [Option.some_bind]
    rw [decTxInputAux_succ, decodeUint_cons_lt (by norm_num)]
    simp only [Option.some_bind]
    rw [if_neg (by norm_num)]
    norm_num
    rw [decodeBytes_bytesEnc hsig]
    simp only [Option.some_bind]
    rw [decTxInputAux_succ, decodeUint_cons_lt (by norm_num)]
    simp only [Option.some_bind]
    rw [if_neg (by norm_num)]
    norm_num
    rw [decodeBytes_bytesEnc hpk]
    simp only [Option.some_bind]
    rw [decTxInputAux_succ, decodeUint_cons_lt (by norm_num)]
    simp only [Option.some_bind]
    simp [Inhabited.default]
  · subst h2
    subst h3
    subst h4
    have hb0 : id.isEmpty = false := by simpa using h1
    simp only [encTxInput,
      encFields,
      optInt,
      optBytes,
      hb0,
      Bool.false_eq_true,
      if_false,
      if_pos rfl,
      List.isEmpty_nil,
      encFieldsAux,
      uintEnc_lt (by norm_num : (1:Nat) < 128)]
    simp only [List.append_assoc, List.cons_append, List.nil_append]
    rw [decTxInputAux_succ, decodeUint_cons_lt (by norm_num)]
    simp only [Option.some_bind]
    rw [if_neg (by norm_num)]
    norm_num
    rw [decodeBytes_bytesEnc hid]
    simp only [Option.some_bind]
    rw [decTxInputAux_succ, decodeUint_cons_lt (by norm_num)]
    simp only [Option.some_bind]
    simp [Inhabited.default]
  · subst h2
    subst h3
    have hb0 : id.isEmpty = false := by simpa using h1
    have hb3 : pk.isEmpty = false := by simpa using h4
    simp only [encTxInput,
      encFields,
      optInt,
      optBytes,
      hb0,
      Bool.false_eq_true,
      if_false,
      if_pos rfl,
      List.isEmpty_nil,
      hb3,
      encFieldsAux,
      uintEnc_lt (by norm_num : (1:Nat) < 128),
      uintEnc_lt (by norm_num : (3:Nat) < 128)]
    simp only [List.append_assoc, List.cons_append, List.nil_append]
    rw [decTxInputAux_succ, decodeUint_cons_lt (by norm_num)]
    simp only [Option.some_bind]
    rw [if_neg (by norm_num)]
    norm_num
    rw [decodeBytes_bytesEnc hid]
    simp only [Option.some_bind]
    rw [decTxInputAux_succ, decodeUint_cons_lt (by norm_num)]
    simp only [Option.some_bind]
    rw [if_neg (by norm_num)]
    norm_num
    rw [decodeBytes_bytesEnc hpk]
    simp only [Option.some_bind]
    rw [decTxInputAux_succ, decodeUint_cons_lt (by norm_num)]
    simp only [Option.some_bind]
    simp [Inhabited.default]
  · subst h2
    subst h4
    have hb0 : id.isEmpty = false := by simpa using h1
    have hb2 : sig.isEmpty = false := by simpa using h3
    simp only [encTxInput,
      encFields,
      optInt,
      optBytes,
      hb0,
      Bool.false_eq_true,
      if_false,
      if_pos rfl,
      hb2,
      List.isEmpty_nil,
      encFieldsAux,
      uintEnc_lt (by norm_num : (1:Nat) < 128),
      uintEnc_lt (by norm_num : (2:Nat) < 128)]
    simp only [List.append_assoc, List.cons_append, List.nil_append]
    rw [decTxInputAux_succ, decodeUint_cons_lt (by norm_num)]
    simp only [Option.some_bind]
    rw [if_neg (by norm_num)]
    norm_num
    rw [decodeBytes_bytesEnc hid]
    simp only [Option.some_bind]
    rw [decTxInputAux_succ, decodeUint_cons_lt (by norm_num)]
    simp only [Option.some_bind]
    rw [if_neg (by norm_num)]
    norm_num
    rw [decodeBytes_bytesEnc hsig]
    simp only [Option.some_bind]
    rw [decTxInputAux_succ, decodeUint_cons_lt (by norm_num)]
    simp only [Option.some_bind]
    simp [Inhabited.default]
  · subst h2
    have hb0 : id.isEmpty = false := by simpa using h1
    have hb2 : sig.isEmpty = false := by simpa using h3
    have hb3 : pk.isEmpty = false := by simpa using h4
    simp only [encTxInput,
      encFields,
      optInt,
      optBytes,
      hb0,
      Bool.false_eq_true,
      if_false,
      if_pos rfl,
      hb2,
      hb3,
      encFieldsAux,
      uintEnc_lt (by norm_num : (1:Nat) < 128),
      uintEnc_lt (by norm_num : (2:Nat) < 128)]
    simp only [List.append_assoc, List.cons_append, List.nil_append]
    rw [decTxInputAux_succ, decodeUint_cons_lt (by norm_num)]
    simp only [Option.some_bind]
    rw [if_neg (by norm_num)]
    norm_num
    rw [decodeBytes_bytesEnc hid]
    simp only [Option.some_bind]
    rw [decTxInputAux_succ, decodeUint_cons_lt (by norm_num)]
    simp only [Option.some_bind]
    rw [if_neg (by norm_num)]
    norm_num
    rw [decodeBytes_bytesEnc hsig]
    simp only [Option.some_bind]
    rw [decTxInputAux_succ, decodeUint_cons_lt (by norm_num)]
    simp only [Option.some_bind]
    rw [if_neg (by norm_num)]
    norm_num
    rw [decodeBytes_bytesEnc hpk]
    simp only [Option.some_bind]
    rw [decTxInputAux_succ, decodeUint_cons_lt (by norm_num)]
    simp only [Option.some_bind]
    simp [Inhabited.default]
  · subst h3
    subst h4
    have hb0 : id.isEmpty = false := by simpa using h1
    simp only [encTxInput,
      encFields,
      optInt,
      optBytes,
      hb0,
      Bool.false_eq_true,
      if_false,
      if_neg h2,
      List.isEmpty_nil,
      if_pos rfl,
      encFieldsAux,
      uintEnc_lt (by norm_num : (1:Nat) < 128)]
    simp only [List.append_assoc, List.cons_append, List.nil_append]
    rw [decTxInputAux_succ, decodeUint_cons_lt (by norm_num)]
    simp only [Option.some_bind]
    rw [if_neg (by norm_num)]
    norm_num
    rw [decodeBytes_bytesEnc hid]
    simp only [Option.some_bind]
    rw [decTxInputAux_succ, decodeUint_cons_lt (by norm_num)]
    simp only [Option.some_bind]
    rw [if_neg (by norm_num)]
    norm_num
    rw [decodeInt_intEnc hout]
    simp only [Option.some_bind]
    rw [decTxInputAux_succ, decodeUint_cons_lt (by norm_num)]
    simp only [Option.some_bind]
    simp [Inhabited.default]
  · subst h3
    have hb0 : id.isEmpty = false := by simpa using h1
    have hb3 : pk.isEmpty = false := by simpa using h4
    simp only [encTxInput,
      encFields,
      optInt,
      optBytes,
      hb0,
      Bool.false_eq_true,
      if_false,
      if_neg h2,
      List.isEmpty_nil,
      if_pos rfl,
      hb3,
      encFieldsAux,
      uintEnc_lt (by norm_num : (1:Nat) < 128),
      uintEnc_lt (by norm_num : (2:Nat) < 128)]
    simp only [List.append_assoc, List.cons_append, List.nil_append]
    rw [decTxInputAux_succ, decodeUint_cons_lt (by norm_num)]
    simp only [Option.some_bind]
    rw [if_neg (by norm_num)]
    norm_num
    rw [decodeBytes_bytesEnc hid]
    simp only [Option.some_bind]
    rw [decTxInputAux_succ, decodeUint_cons_lt (by norm_num)]
    simp only [Option.some_bind]
    rw [if_neg (by norm_num)]
    norm_num
    rw [decodeInt_intEnc hout]
    simp only [Option.some_bind]
    rw [decTxInputAux_succ, decodeUint_cons_lt (by norm_num)]
    simp only [Option.some_bind]
    rw [if_neg (by norm_num)]
    norm_num
    rw [decodeBytes_bytesEnc hpk]
    simp only [Option.some_bind]
    rw [decTxInputAux_succ, decodeUint_cons_lt (by norm_num)]
    simp only [Option.some_bind]
    simp [Inhabited.default]
  · subst h4
    have hb0 : id.isEmpty = false := by simpa using h1
    have hb2 : sig.isEmpty = false := by simpa using h3
    simp only [encTxInput,
      encFields,
      optInt,
      optBytes,
      hb0,
      Bool.false_eq_true,
      if_false,
      if_neg h2,
      hb2,
      List.isEmpty_nil,
      if_pos rfl,
      encFieldsAux,
      uintEnc_lt (by norm_num : (1:Nat) < 128)]
    simp only [List.append_assoc, List.cons_append, List.nil_append]
    rw [decTxInputAux_succ, decodeUint_cons_lt (by norm_num)]
    simp only [Option.some_bind]
    rw [if_neg (by norm_num)]
    norm_num
    rw [decodeBytes_bytesEnc hid]
    simp only [Option.some_bind]
    rw [decTxInputAux_succ, decodeUint_cons_lt (by norm_num)]
    simp only [Option.some_bind]
    rw [if_neg (by norm_num)]
    norm_num
    rw [decodeInt_intEnc hout]
    simp only [Option.some_bind]
    rw [decTxInputAux_succ, decodeUint_cons_lt (by norm_num)]
    simp only [Option.some_bind]
    rw [if_neg (by norm_num)]
    norm_num
    rw [decodeBytes_bytesEnc hsig]
    simp only [Option.some_bind]
    rw [decTxInputAux_succ, decodeUint_cons_lt (by norm_num)]
    simp only [Option.some_bind]
    simp [Inhabited.default]
  · have hb0 : id.isEmpty = false := by simpa using h1
    have hb2 : sig.isEmpty = false := by simpa using h3
    have hb3 : pk.isEmpty = false := by simpa using h4
    simp only [encTxInput,
      encFields,
      optInt,
      optBytes,
      hb0,
      Bool.false_eq_true,
      if_false,
      if_neg h2,
      hb2,
      hb3,
      encFieldsAux,
      uintEnc_lt (by norm_num : (1:Nat) < 128)]
    simp only [List.append_assoc, List.cons_append, List.nil_append]
    rw [decTxInputAux_succ, decodeUint_cons_lt (by norm_num)]
    simp only [Option.some_bind]
    rw [if_neg (by norm_num)]
    norm_num
    rw [decodeBytes_bytesEnc hid]
    simp only [Option.some_bind]
    rw [decTxInputAux_succ, decodeUint_cons_lt (by norm_num)]
    simp only [Option.some_bind]
    rw [if_neg (by norm_num)]
    norm_num
    rw [decodeInt_intEnc hout]
    simp only [Option.some_bind]
    rw [decTxInputAux_succ, decodeUint_cons_lt (by norm_num)]
    simp only [Option.some_bind]
    rw [if_neg (by norm_num)]
    norm_num
    rw [decodeBytes_bytesEnc hsig]
    simp only [Option.some_bind]
    rw [decTxInputAux_succ, decodeUint_cons_lt (by norm_num)]
    simp only [Option.some_bind]
    rw [if_neg (by norm_num)]
    norm_num
    rw [decodeBytes_bytesEnc hpk]
    simp only [Option.some_bind]
    rw [decTxInputAux_succ, decodeUint_cons_lt (by norm_num)]
    simp only [Option.some_bind]
    simp [Inhabited.default]

theorem decListOf_succ {α} (dec : List Nat → Option (α × List Nat)) (k : Nat) (l : List Nat) :
    decListOf dec (k + 1) l
      = (dec l).bind fun p => (decListOf dec k p.2).map fun q => (p.1 :: q.1, q.2) := rfl

theorem decListOf_enc {α} {dec : List Nat → Option (α × List Nat)} {enc : α → List Nat}
    {xs : List α} (h : ∀ x ∈ xs, ∀ r2, dec (enc x ++ r2) = some (x, r2)) (r : List Nat) :
    decListOf dec xs.length ((xs.map enc).flatten ++ r) = some (xs, r) := by
  induction xs with
  | nil => rfl
  | cons x rest ih =>
    simp only [List.map_cons, List.flatten_cons, List.length_cons, List.append_assoc]
    rw [decListOf_succ, h x (by simp)]
    simp only [Option.some_bind]
    rw [ih (fun y hy r2 => h y (by simp [hy]) r2)]
    rfl
theorem decTransaction_enc {tid : List Nat} {tins : List TxInput} {touts : List TxOutput}
    (hid : tid.length < 256 ^ 127) (hcIn : tins.length < 256 ^ 127)
    (hcOut : touts.length < 256 ^ 127)
    (helemIn : ∀ x ∈ tins, ∀ r2, decTxInput (encTxInput x ++ r2) = some (x, r2))
    (helemOut : ∀ x ∈ touts, ∀ r2, decTxOutput (encTxOutput x ++ r2) = some (x, r2))
    (r : List Nat) :
    decTransactionAux 4 zeroTx (-1) (encTransactionBody ⟨tid, tins, touts⟩ ++ r)
      = some (⟨tid, tins, touts⟩, r) := by
  by_cases h1 : tid = [] <;> by_cases h2 : tins = [] <;> by_cases h3 : touts = []
  · subst h1; subst h2; subst h3; rfl
  · subst h1
    subst h2
    have hb2 : touts.isEmpty = false := by simpa using h3
    simp only [encTransactionBody,
      encFields,
      optBytes,
      optListOf,
      List.isEmpty_nil,
      if_pos rfl,
      hb2,
      Bool.false_eq_true,
      if_false,
      encFieldsAux,
      uintEnc_lt (by norm_num : (3:Nat) < 128)]
    simp only [List.append_assoc, List.cons_append, List.nil_append]
    rw [decTransactionAux_succ, decodeUint_cons_lt (by norm_num)]
    simp only [Option.some_bind]
    rw [if_neg (by norm_num)]
    norm_num
    rw [decodeUint_uintEnc hcOut]
    simp only [Option.some_bind]
    rw [decListOf_enc helemOut]
    simp only [Option.some_bind]
    rw [decTransactionAux_succ, decodeUint_cons_lt (by norm_num)]
    simp only [Option.some_bind]
    simp [zeroTx]
  · subst h1
    subst h3
    have hb1 : tins.isEmpty = false := by simpa using h2
    simp only [encTransactionBody,
      encFields,
      optBytes,
      optListOf,
      List.isEmpty_nil,
      if_pos rfl,
      hb1,
      Bool.false_eq_true,
      if_false,
      encFieldsAux,
      uintEnc_lt (by norm_num : (2:Nat) < 128)]
    simp only [List.append_assoc, List.cons_append, List.nil_append]
    rw [decTransactionAux_succ, decodeUint_cons_lt (by norm_num)]
    simp only [Option.some_bind]
    rw [if_neg (by norm_num)]
    norm_num
    rw [decodeUint_uintEnc hcIn]
    simp only [Option.some_bind]
    rw [decListOf_enc helemIn]
    simp only [Option.some_bind]
    rw [decTransactionAux_succ, decodeUint_cons_lt (by norm_num)]
    simp only [Option.some_bind]
    simp [zeroTx]
  · subst h1
    have hb1 : tins.isEmpty = false := by simpa using h2
    have hb2 : touts.isEmpty = false := by simpa using h3
    simp only [encTransactionBody,
      encFields,
      optBytes,
      optListOf,
      List.isEmpty_nil,
      if_pos rfl,
      hb1,
      Bool.false_eq_true,
      if_false,
      hb2,
      encFieldsAux,
      uintEnc_lt (by norm_num : (1:Nat) < 128),
      uintEnc_lt (by norm_num : (2:Nat) < 128)]
    simp only [List.append_assoc, List.cons_append, List.nil_append]
    rw [decTransactionAux_succ, decodeUint_cons_lt (by norm_num)]
    simp only [Option.some_bind]
    rw [if_neg (by norm_num)]
    norm_num
    rw [decodeUint_uintEnc hcIn]
    simp only [Option.some_bind]
    rw [decListOf_enc helemIn]
    simp only [Option.some_bind]
    rw [decTransactionAux_succ, decodeUint_cons_lt (by norm_num)]
    simp only [Option.some_bind]
    rw [if_neg (by norm_num)]
    norm_num
    rw [decodeUint_uintEnc hcOut]
    simp only [Option.some_bind]
    rw [decListOf_enc helemOut]
    simp only [Option.some_bind]
    rw [decTransactionAux_succ, decodeUint_cons_lt (by norm_num)]
    simp only [Option.some_bind]
    simp [zeroTx]
  · subst h2
    subst h3
    have hb0 : tid.isEmpty = false := by simpa using h1
    simp only [encTransactionBody,
      encFields,
      optBytes,
      optListOf,
      hb0,
      Bool.false_eq_true,
      if_false,
      List.isEmpty_nil,
      if_pos rfl,
      encFieldsAux,
      uintEnc_lt (by norm_num : (1:Nat) < 128)]
    simp only [List.append_assoc, List.cons_append, List.nil_append]
    rw [decTransactionAux_succ, decodeUint_cons_lt (by norm_num)]
    simp only [Option.some_bind]
    rw [if_neg (by norm_num)]
    norm_num
    rw [decodeBytes_bytesEnc hid]
    simp only [Option.some_bind]
    rw [decTransactionAux_succ, decodeUint_cons_lt (by norm_num)]
    simp only [Option.some_bind]
    simp [zeroTx]
  · subst h2
    have hb0 : tid.isEmpty = false := by simpa using h1
    have hb2 : touts.isEmpty = false := by simpa using h3
    simp only [encTransactionBody,
      encFields,
      optBytes,
      optListOf,
      hb0,
      Bool.false_eq_true,
      if_false,
      List.isEmpty_nil,
      if_pos rfl,
      hb2,
      encFieldsAux,
      uintEnc_lt (by norm_num : (1:Nat) < 128),
      uintEnc_lt (by norm_num : (2:Nat) < 128)]
    simp only [List.append_assoc, List.cons_append, List.nil_append]
    rw [decTransactionAux_succ, decodeUint_cons_lt (by norm_num)]
    simp only [Option.some_bind]
    rw [if_neg (by norm_num)]
    norm_num
    rw [decodeBytes_bytesEnc hid]
    simp only [Option.some_bind]
    rw [decTransactionAux_succ, decodeUint_cons_lt (by norm_num)]
    simp only [Option.some_bind]
    rw [if_neg (by norm_num)]
    norm_num
    rw [decodeUint_uintEnc hcOut]
    simp only [Option.some_bind]
    rw [decListOf_enc helemOut]
    simp only [Option.some_bind]
    rw [decTransactionAux_succ, decodeUint_cons_lt (by norm_num)]
    simp only [Option.some_bind]
    simp [zeroTx]
  · subst h3
    have hb0 : tid.isEmpty = false := by simpa using h1
    have hb1 : tins.isEmpty = false := by simpa using h2
    simp only [encTransactionBody,
      encFields,
      optBytes,
      optListOf,
      hb0,
      Bool.false_eq_true,
      if_false,
      hb1,
      List.isEmpty_nil,
      if_pos rfl,
      encFieldsAux,
      uintEnc_lt (by norm_num : (1:Nat) < 128)]
    simp only [List.append_assoc, List.cons_append, List.nil_append]
    rw [decTransactionAux_succ, decodeUint_cons_lt (by norm_num)]
    simp only [Option.some_bind]
    rw [if_neg (by norm_num)]
    norm_num
    rw [decodeBytes_bytesEnc hid]
    simp only [Option.some_bind]
    rw [decTransactionAux_succ, decodeUint_cons_lt (by norm_num)]
    simp only [Option.some_bind]
    rw [if_neg (by norm_num)]
    norm_num
    rw [decodeUint_uintEnc hcIn]
    simp only [Option.some_bind]
    rw [decListOf_enc helemIn]
    simp only [Option.some_bind]
    rw [decTransactionAux_succ, decodeUint_cons_lt (by norm_num)]
    simp only [Option.some_bind]
    simp [zeroTx]
  · have hb0 : tid.isEmpty = false := by simpa using h1
    have hb1 : tins.isEmpty = false := by simpa using h2
    have hb2 : touts.isEmpty = false := by simpa using h3
    simp only [encTransactionBody,
      encFields,
      optBytes,
      optListOf,
      hb0,
      Bool.false_eq_true,
      if_false,
      hb1,
      hb2,
      encFieldsAux,
      uintEnc_lt (by norm_num : (1:Nat) < 128)]
    simp only [List.append_assoc, List.cons_append, List.nil_append]
    rw [decTransactionAux_succ, decodeUint_cons_lt (by norm_num)]
    simp only [Option.some_bind]
    rw [if_neg (by norm_num)]
    norm_num
    rw [decodeBytes_bytesEnc hid]
    simp only [Option.some_bind]
    rw [decTransactionAux_succ, decodeUint_cons_lt (by norm_num)]
    simp only [Option.some_bind]
    rw [if_neg (by norm_num)]
    norm_num
    rw [decodeUint_uintEnc hcIn]
    simp only [Option.some_bind]
    rw [decListOf_enc helemIn]
    simp only [Option.some_bind]
    rw [decTransactionAux_succ, decodeUint_cons_lt (by norm_num)]
    simp only [Option.some_bind]
    rw [if_neg (by norm_num)]
    norm_num
    rw [decodeUint_uintEnc hcOut]
    simp only [Option.some_bind]
    rw [decListOf_enc helemOut]
    simp only [Option.some_bind]
    rw [decTransactionAux_succ, decodeUint_cons_lt (by norm_num)]
    simp only [Option.some_bind]
    simp [zeroTx]

/-! ## Size bounds and the serialization round trip -/

/-- Well-formedness of a `TxInput` as a value of the Go types: slice
lengths below `2^64` and the `int` field in the 64-bit signed range.
Every value representable in Go satisfies this. -/
def TxInput.wf (inp : TxInput) : Prop :=
  inp.id.length < 2 ^ 64 ∧ inp.signature.length < 2 ^ 64 ∧
    inp.pubKey.length < 2 ^ 64 ∧ -(2 ^ 63) ≤ inp.out ∧ inp.out < 2 ^ 63

/-- Well-formedness of a `TxOutput` as a value of the Go types. -/
def TxOutput.wf (o : TxOutput) : Prop :=
  o.pubKeyHash.length < 2 ^ 64 ∧ -(2 ^ 63) ≤ o.value ∧ o.value < 2 ^ 63

/-- Well-formedness of a `Transaction` as a value of the Go types. -/
def Transaction.wf (tx : Transaction) : Prop :=
  tx.id.length < 2 ^ 64 ∧ tx.inputs.length < 2 ^ 64 ∧ tx.outputs.length < 2 ^ 64 ∧
    (∀ inp ∈ tx.inputs, inp.wf) ∧ (∀ o ∈ tx.outputs, o.wf)

instance (inp : TxInput) : Decidable inp.wf := by unfold TxInput.wf; infer_instance

instance (o : TxOutput) : Decidable o.wf := by unfold TxOutput.wf; infer_instance

instance (tx : Transaction) : Decidable tx.wf := by unfold Transaction.wf; infer_instance

theorem lt127 {n : Nat} (h : n < 2 ^ 64) : n < 256 ^ 127 := by
  have h2 : (2 : Nat) ^ 64 ≤ 256 ^ 127 := by norm_num
  omega

theorem zigzag_lt {i : Int} (h1 : -(2 ^ 63) ≤ i) (h2 : i < 2 ^ 63) :
    zigzag i < 2 ^ 64 := by
  unfold zigzag
  by_cases h : 0 ≤ i
  · rw [if_pos h]; omega
  · rw [if_neg h]; omega

/-- Length of a field payload (including its delta byte) as counted by
`encFieldsAux`. -/
def optLen : Option (List Nat) → Nat
  | none => 0
  | some p => 1 + p.length

theorem uintEnc_length {n : Nat} (h : n < 2 ^ 64) : (uintEnc n).length ≤ 9 := by
  unfold uintEnc
  by_cases h128 : n < 128
  · rw [if_pos h128]; simp
  · rw [if_neg h128]
    have : (bigIntBytes n).length ≤ 8 := bigIntBytes_length_le (by norm_num at h ⊢; omega)
    simp
    omega

theorem bytesEnc_length {l : List Nat} (h : l.length < 2 ^ 64) :
    (bytesEnc l).length ≤ 9 + l.length := by
  unfold bytesEnc
  rw [List.length_append]
  have := uintEnc_length h
  omega

theorem intEnc_length {i : Int} (h1 : -(2 ^ 63) ≤ i) (h2 : i < 2 ^ 63) :
    (intEnc i).length ≤ 9 :=
  uintEnc_length (zigzag_lt h1 h2)

theorem optLen_optBytes {l : List Nat} (h : l.length < 2 ^ 64) :
    optLen (optBytes l) ≤ 10 + l.length := by
  unfold optBytes
  by_cases he : l.isEmpty
  · rw [if_pos he]; simp [optLen]
  · rw [if_neg he]
    have := bytesEnc_length h
    simp [optLen]
    omega

theorem optLen_optInt {i : Int} (h1 : -(2 ^ 63) ≤ i) (h2 : i < 2 ^ 63) :
    optLen (optInt i) ≤ 10 := by
  unfold optInt
  by_cases he : i = 0
  · rw [if_pos he]; simp [optLen]
  · rw [if_neg he]
    have := intEnc_length h1 h2
    simp [optLen]
    omega

theorem flatten_length_le {α} {l : List α} {enc : α → List Nat} {c : Nat}
    (h : ∀ x ∈ l, (enc x).length ≤ c) :
    ((l.map enc).flatten).length ≤ l.length * c := by
  rw [List.length_flatten]
  calc ((l.map enc).map List.length).sum ≤ ((l.map enc).map List.length).length * c := by
        refine le_trans (List.sum_le_card_nsmul _ c ?_) (by simp)
        intro x hx
        simp only [List.mem_map] at hx
        obtain ⟨y, hy, rfl⟩ := hx
        obtain ⟨z, hz, rfl⟩ := hy
        exact h z hz
    _ = l.length * c := by simp

theorem optLen_optListOf {α} {l : List α} {enc : α → List Nat} {c : Nat}
    (hlen : l.length < 2 ^ 64) (h : ∀ x ∈ l, (enc x).length ≤ c) :
    optLen (optListOf enc l) ≤ 10 + l.length * c := by
  unfold optListOf
  by_cases he : l.isEmpty
  · rw [if_pos he]; simp [optLen]
  · rw [if_neg he]
    have h1 := uintEnc_length hlen
    have h2 := flatten_length_le h
    simp only [optLen, List.length_append]
    omega

theorem encFieldsAux_length : ∀ (fs : List (Option (List Nat))) (gap : Nat),
    gap + fs.length ≤ 127 →
    (encFieldsAux fs gap).length ≤ 1 + (fs.map optLen).sum := by
  intro fs
  induction fs with
  | nil => intro gap _; simp [encFieldsAux]
  | cons f rest ih =>
    intro gap hg
    cases f with
    | none =>
      have := ih (gap + 1) (by simp at hg; omega)
      simp only [encFieldsAux, List.map_cons, List.sum_cons, optLen]
      omega
    | some p =>
      have := ih 1 (by simp at hg; omega)
      simp only [encFieldsAux, List.map_cons, List.sum_cons, optLen,
        uintEnc_lt (by omega : gap < 128)]
      simp only [List.length_append, List.length_cons, List.length_nil]
      omega

theorem encTxInput_length {inp : TxInput} (h : inp.wf) :
    (encTxInput inp).length ≤ 2 ^ 66 := by
  obtain ⟨hid, hsig, hpk, ho1, ho2⟩ := h
  unfold encTxInput encFields
  have hb := encFieldsAux_length
    [optBytes inp.id, optInt inp.out, optBytes inp.signature, optBytes inp.pubKey] 1
    (by simp)
  simp only [List.map_cons, List.map_nil, List.sum_cons, List.sum_nil] at hb
  have e1 := optLen_optBytes hid
  have e2 := optLen_optInt ho1 ho2
  have e3 := optLen_optBytes hsig
  have e4 := optLen_optBytes hpk
  have h64 : (2 : Nat) ^ 64 = 18446744073709551616 := by norm_num
  have h66 : (2 : Nat) ^ 66 = 73786976294838206464 := by norm_num
  omega

theorem encTxOutput_length {o : TxOutput} (h : o.wf) :
    (encTxOutput o).length ≤ 2 ^ 66 := by
  obtain ⟨hp, hv1, hv2⟩ := h
  unfold encTxOutput encFields
  have hb := encFieldsAux_length [optInt o.value, optBytes o.pubKeyHash] 1 (by simp)
  simp only [List.map_cons, List.map_nil, List.sum_cons, List.sum_nil] at hb
  have e1 := optLen_optInt hv1 hv2
  have e2 := optLen_optBytes hp
  have h64 : (2 : Nat) ^ 64 = 18446744073709551616 := by norm_num
  have h66 : (2 : Nat) ^ 66 = 73786976294838206464 := by norm_num
  omega

theorem encTransactionBody_length {tx : Transaction} (h : tx.wf) :
    (encTransactionBody tx).length ≤ 2 ^ 133 := by
  obtain ⟨hid, hcIn, hcOut, hIn, hOut⟩ := h
  have hform : encTransactionBody tx = encFields
      [optBytes tx.id, optListOf encTxInput tx.inputs, optListOf encTxOutput tx.outputs] :=
    rfl
  rw [hform]
  unfold encFields
  have hb := encFieldsAux_length
    [optBytes tx.id, optListOf encTxInput tx.inputs, optListOf encTxOutput tx.outputs] 1
    (by simp)
  simp only [List.map_cons, List.map_nil, List.sum_cons, List.sum_nil] at hb
  have e1 := optLen_optBytes hid
  have e2 : optLen (optListOf encTxInput tx.inputs) ≤ 10 + tx.inputs.length * 2 ^ 66 :=
    optLen_optListOf hcIn (fun x hx => encTxInput_length (hIn x hx))
  have e3 : optLen (optListOf encTxOutput tx.outputs) ≤ 10 + tx.outputs.length * 2 ^ 66 :=
    optLen_optListOf hcOut (fun x hx => encTxOutput_length (hOut x hx))
  have hmul1 : tx.inputs.length * 2 ^ 66 ≤ 2 ^ 130 := by
    calc tx.inputs.length * 2 ^ 66 ≤ 2 ^ 64 * 2 ^ 66 :=
          Nat.mul_le_mul_right _ (by omega)
      _ = 2 ^ 130 := by norm_num
  have hmul2 : tx.outputs.length * 2 ^ 66 ≤ 2 ^ 130 := by
    calc tx.outputs.length * 2 ^ 66 ≤ 2 ^ 64 * 2 ^ 66 :=
          Nat.mul_le_mul_right _ (by omega)
      _ = 2 ^ 130 := by norm_num
  have h64 : (2 : Nat) ^ 64 = 18446744073709551616 := by norm_num
  have h130 : (2 : Nat) ^ 130 = 1361129467683753853853498429727072845824 := by norm_num
  have h133 : (2 : Nat) ^ 133 = 10889035741470030830827987437816582766592 := by norm_num
  omega

theorem serialize_roundtrip {tx : Transaction} (hwf : tx.wf) :
    DeserializeTransaction tx.Serialize = some tx := by
  obtain ⟨hid, hcIn, hcOut, hIn, hOut⟩ := hwf
  have hbody : (intEnc 65 ++ encTransactionBody tx).length < 256 ^ 127 := by
    rw [List.length_append]
    have h1 : (intEnc 65).length = 2 := by decide
    have h2 := encTransactionBody_length ⟨hid, hcIn, hcOut, hIn, hOut⟩
    have h3 : (2 : Nat) ^ 133 + 2 < 256 ^ 127 := by norm_num
    omega
  unfold Transaction.Serialize DeserializeTransaction
  rw [decodeUint_uintEnc hbody]
  simp only [Option.some_bind]
  rw [if_pos (Nat.le_refl _)]
  rw [decodeInt_intEnc (by decide : zigzag 65 < 256 ^ 127)]
  simp only [Option.some_bind]
  rw [if_pos trivial]
  have helemIn : ∀ x ∈ tx.inputs, ∀ r2, decTxInput (encTxInput x ++ r2) = some (x, r2) := by
    intro x hx r2
    obtain ⟨a1, a2, a3, a4, a5⟩ := hIn x hx
    exact decTxInput_enc (lt127 a1) (lt127 (zigzag_lt a4 a5)) (lt127 a2) (lt127 a3) r2
  have helemOut : ∀ x ∈ tx.outputs, ∀ r2, decTxOutput (encTxOutput x ++ r2) = some (x, r2) := by
    intro x hx r2
    obtain ⟨b1, b2, b3⟩ := hOut x hx
    exact decTxOutput_enc (lt127 (zigzag_lt b2 b3)) (lt127 b1) r2
  have hmain := @decTransaction_enc tx.id tx.inputs tx.outputs
    (lt127 hid) (lt127 hcIn) (lt127 hcOut) helemIn helemOut []
  rw [← List.append_nil (encTransactionBody tx)]
  have htx : (⟨tx.id, tx.inputs, tx.outputs⟩ : Transaction) = tx := rfl
  rw [htx] at hmain
  rw [hmain]
  rfl

/-! ## List modification lemmas for the signing loops -/

theorem listModify_length : ∀ (l : List α) (i : Nat) (f : α → α),
    (listModify l i f).length = l.length := by
  intro l
  induction l with
  | nil => intro i f; rfl
  | cons a as ih =>
    intro i f
    cases i with
    | zero => rfl
    | succ i2 => simp [listModify, ih]

theorem getD_eq_headD_drop (l : List α) : ∀ (k : Nat) (d : α),
    l.getD k d = (l.drop k).headD d := by
  induction l with
  | nil => intro k d; cases k <;> rfl
  | cons a as ih =>
    intro k d
    cases k with
    | zero => rfl
    | succ k2 =>
      simp only [List.drop_succ_cons, List.getD_cons_succ]
      exact ih k2 d

theorem listModify_getD_eq [Inhabited α] : ∀ (l : List α) (i : Nat) (f : α → α),
    i < l.length → (listModify l i f).getD i default = f (l.getD i default) := by
  intro l
  induction l with
  | nil => intro i f h; simp at h
  | cons a as ih =>
    intro i f h
    cases i with
    | zero => rfl
    | succ i2 =>
      simp only [listModify, List.getD_cons_succ]
      exact ih i2 f (by simpa using h)

theorem listModify_getD_ne [Inhabited α] : ∀ (l : List α) (i j : Nat) (f : α → α),
    j ≠ i → (listModify l i f).getD j default = l.getD j default := by
  intro l
  induction l with
  | nil => intro i j f _; cases i <;> rfl
  | cons a as ih =>
    intro i j f hne
    cases i with
    | zero =>
      cases j with
      | zero => exact absurd rfl hne
      | succ j2 => rfl
    | succ i2 =>
      cases j with
      | zero => rfl
      | succ j2 =>
        simp only [listModify, List.getD_cons_succ]
        exact ih i2 j2 f (by omega)

theorem listModify_eq_self [Inhabited α] : ∀ (l : List α) (i : Nat) (f : α → α),
    (i < l.length → f (l.getD i default) = l.getD i default) → listModify l i f = l := by
  intro l
  induction l with
  | nil => intro i f _; rfl
  | cons a as ih =>
    intro i f h
    cases i with
    | zero =>
      have := h (by simp)
      simp only [List.getD_cons_zero] at this
      simp [listModify, this]
    | succ i2 =>
      simp only [listModify, List.cons.injEq, true_and]
      exact ih i2 f (fun hlt => h (by simpa using hlt))

theorem listModify_comp : ∀ (l : List α) (i : Nat) (f g : α → α),
    listModify (listModify l i f) i g = listModify l i (fun x => g (f x)) := by
  intro l
  induction l with
  | nil => intro i f g; rfl
  | cons a as ih =>
    intro i f g
    cases i with
    | zero => rfl
    | succ i2 => simp [listModify, ih]

theorem setInput_id (tx : Transaction) (i : Nat) (f : TxInput → TxInput) :
    (setInput tx i f).id = tx.id := rfl

theorem setInput_outputs (tx : Transaction) (i : Nat) (f : TxInput → TxInput) :
    (setInput tx i f).outputs = tx.outputs := rfl

theorem setInput_inputs (tx : Transaction) (i : Nat) (f : TxInput → TxInput) :
    (setInput tx i f).inputs = listModify tx.inputs i f := rfl

/-! ## The frame of `Sign`: only input signatures change -/

/-- Two transactions that agree on everything except, possibly, the
`signature` fields of their inputs. -/
def sameButSignature (tx tx' : Transaction) : Prop :=
  tx'.id = tx.id ∧ tx'.outputs = tx.outputs ∧ tx'.inputs.length = tx.inputs.length ∧
    ∀ j : Nat,
      (tx'.inputs.getD j default).id = (tx.inputs.getD j default).id ∧
      (tx'.inputs.getD j default).out = (tx.inputs.getD j default).out ∧
      (tx'.inputs.getD j default).pubKey = (tx.inputs.getD j default).pubKey

theorem sameButSignature_refl (tx : Transaction) : sameButSignature tx tx :=
  ⟨rfl, rfl, rfl, fun _ => ⟨rfl, rfl, rfl⟩⟩

theorem sameButSignature_trans {t1 t2 t3 : Transaction}
    (h1 : sameButSignature t1 t2) (h2 : sameButSignature t2 t3) :
    sameButSignature t1 t3 := by
  obtain ⟨a1, a2, a3, a4⟩ := h1
  obtain ⟨b1, b2, b3, b4⟩ := h2
  refine ⟨b1.trans a1, b2.trans a2, b3.trans a3, fun j => ?_⟩
  obtain ⟨c1, c2, c3⟩ := a4 j
  obtain ⟨d1, d2, d3⟩ := b4 j
  exact ⟨d1.trans c1, d2.trans c2, d3.trans c3⟩

theorem listModify_oob : ∀ (l : List α) (i : Nat) (f : α → α),
    l.length ≤ i → listModify l i f = l := by
  intro l
  induction l with
  | nil => intro i f _; rfl
  | cons a as ih =>
    intro i f h
    cases i with
    | zero => simp at h
    | succ i2 => simp only [listModify, List.cons.injEq, true_and]; exact ih i2 f (by simpa using h)

theorem sameButSignature_setInputSig (tx : Transaction) (i : Nat) (s : List Nat) :
    sameButSignature tx (setInput tx i fun x => { x with signature := s }) := by
  refine ⟨rfl, rfl, by simp [setInput, listModify_length], fun j => ?_⟩
  by_cases hji : j = i
  · subst hji
    by_cases hlt : j < tx.inputs.length
    · rw [setInput_inputs, listModify_getD_eq tx.inputs j _ hlt]
      exact ⟨rfl, rfl, rfl⟩
    · rw [setInput_inputs, listModify_oob tx.inputs j _ (by omega)]
      exact ⟨rfl, rfl, rfl⟩
  · rw [setInput_inputs, listModify_getD_ne tx.inputs i j _ hji]
    exact ⟨rfl, rfl, rfl⟩

theorem signAux_frame (oracle : List Nat → List Nat × List Nat)
    (prevs : List (List Nat × Transaction)) :
    ∀ (rest : List TxInput) (k : Nat) (txCopy tx tx' : Transaction),
      signAux oracle prevs rest k txCopy tx = some tx' → sameButSignature tx tx' := by
  intro rest
  induction rest with
  | nil =>
    intro k txCopy tx tx' h
    simp only [signAux, Option.some.injEq] at h
    subst h
    exact sameButSignature_refl tx
  | cons inp rest2 ih =>
    intro k txCopy tx tx' h
    simp only [signAux] at h
    cases hg : getOutput (lookupTx prevs (hexEncode inp.id)) inp.out with
    | none => rw [hg] at h; exact absurd h (by simp)
    | some o =>
      rw [hg] at h
      exact sameButSignature_trans (sameButSignature_setInputSig tx k _) (ih _ _ _ _ h)

theorem Sign_frame {oracle : List Nat → List Nat × List Nat} {tx : Transaction}
    {prevs : List (List Nat × Transaction)} {tx' : Transaction}
    (h : Transaction.Sign oracle tx prevs = some tx') : sameButSignature tx tx' := by
  unfold Transaction.Sign at h
  by_cases hc : tx.IsCoinbase
  · rw [if_pos hc] at h
    injection h with h
    subst h
    exact sameButSignature_refl tx
  · rw [if_neg hc] at h
    by_cases hp : tx.inputs.all fun inp => !(lookupTx prevs (hexEncode inp.id)).id.isEmpty
    · rw [if_pos hp] at h
      exact signAux_frame oracle prevs _ _ _ _ _ h
    · rw [if_neg hp] at h
      exact absurd h (by simp)

/-! ## The trimmed-copy state of the signing and verification loops -/

theorem getD_map [Inhabited α] [Inhabited β] (f : α → β) :
    ∀ (l : List α) (k : Nat), k < l.length →
      (l.map f).getD k default = f (l.getD k default) := by
  intro l
  induction l with
  | nil => intro k h; simp at h
  | cons a as ih =>
    intro k h
    cases k with
    | zero => rfl
    | succ k2 =>
      simp only [List.map_cons, List.getD_cons_succ]
      exact ih k2 (by simpa using h)

theorem trimmedCopy_inputs_length (tx : Transaction) :
    tx.TrimmedCopy.inputs.length = tx.inputs.length := by
  simp [Transaction.TrimmedCopy]

theorem trimmedCopy_inputs_getD {tx : Transaction} {k : Nat} (h : k < tx.inputs.length) :
    tx.TrimmedCopy.inputs.getD k default
      = ⟨(tx.inputs.getD k default).id, (tx.inputs.getD k default).out, [], []⟩ := by
  unfold Transaction.TrimmedCopy
  exact getD_map _ tx.inputs k h

theorem getD_eq_getElem? [Inhabited α] : ∀ (l : List α) (n : Nat),
    l.getD n default = (l[n]?).getD default := by
  intro l
  induction l with
  | nil => intro n; cases n <;> rfl
  | cons a as ih =>
    intro n
    cases n with
    | zero => simp
    | succ n2 =>
      simp only [List.getD_cons_succ, List.getElem?_cons_succ]
      exact ih n2

theorem getOutput_some {prev : Transaction} {out : Int} {o : TxOutput}
    (h : getOutput prev out = some o) : o = prev.outputs.getD out.toNat default := by
  unfold getOutput at h
  by_cases hneg : out < 0
  · rw [if_pos hneg] at h; exact absurd h (by simp)
  · rw [if_neg hneg] at h
    rw [getD_eq_getElem?, h]
    rfl

theorem setInput_sigNil_trimmed (tx : Transaction) (k : Nat) :
    setInput tx.TrimmedCopy k (fun x => { x with signature := [] }) = tx.TrimmedCopy := by
  unfold setInput
  rw [listModify_eq_self _ _ _ ?h]
  case h =>
    intro hlt
    rw [trimmedCopy_inputs_getD (by rw [trimmedCopy_inputs_length] at hlt; exact hlt)]

theorem setInput_pubRestore_trimmed (tx : Transaction) (k : Nat) (v : List Nat) :
    setInput (setInput tx.TrimmedCopy k (fun x => { x with pubKey := v })) k
        (fun x => { x with pubKey := [] }) = tx.TrimmedCopy := by
  unfold setInput
  simp only [listModify_comp]
  rw [listModify_eq_self _ _ _ ?h]
  case h =>
    intro hlt
    rw [trimmedCopy_inputs_getD (by rw [trimmedCopy_inputs_length] at hlt; exact hlt)]

/-- The state of the trimmed copy with input `k`'s public key set, as the
loops build it, coincides with `trimmedWithPub`. -/
theorem setInput_pub_eq_trimmedWithPub {tx : Transaction}
    {prevs : List (List Nat × Transaction)} {k : Nat} {o : TxOutput}
    (hg : getOutput (lookupTx prevs (hexEncode (tx.inputs.getD k default).id))
        (tx.inputs.getD k default).out = some o) :
    setInput tx.TrimmedCopy k (fun x => { x with pubKey := o.pubKeyHash })
      = trimmedWithPub tx prevs k := by
  unfold trimmedWithPub
  rw [getOutput_some hg]

/-! ## What the signing loop signs, and what the verification loop checks -/

theorem drop_ne_nil_lt {l : List α} {k : Nat} {a : α} {r : List α}
    (h : l.drop k = a :: r) : k < l.length := by
  by_contra hge
  rw [List.drop_eq_nil_of_le (by omega)] at h
  exact absurd h (by simp)

theorem drop_cons_head [Inhabited α] {l : List α} {k : Nat} {a : α} {r : List α}
    (h : l.drop k = a :: r) : l.getD k default = a := by
  rw [getD_eq_headD_drop, h]
  rfl

theorem drop_cons_tail {l : List α} {k : Nat} {a : α} {r : List α}
    (h : l.drop k = a :: r) : l.drop (k + 1) = r := by
  have h2 := congrArg (List.drop 1) h
  rw [List.drop_drop] at h2
  simp only [List.drop_succ_cons, List.drop_zero] at h2
  exact h2

theorem signAux_messages (oracle : List Nat → List Nat × List Nat)
    (prevs : List (List Nat × Transaction)) (tx0 : Transaction) :
    ∀ (rest : List TxInput) (k : Nat) (tx tx' : Transaction),
      rest = tx0.TrimmedCopy.inputs.drop k →
      tx.inputs.length = tx0.inputs.length →
      signAux oracle prevs rest k tx0.TrimmedCopy tx = some tx' →
      (∀ j, j < k ∨ tx0.inputs.length ≤ j →
          (tx'.inputs.getD j default).signature = (tx.inputs.getD j default).signature) ∧
      (∀ i, k ≤ i → i < tx0.inputs.length →
          (tx'.inputs.getD i default).signature
            = (oracle (signingPreimage tx0 prevs i)).1
                ++ (oracle (signingPreimage tx0 prevs i)).2) := by
  intro rest
  induction rest with
  | nil =>
    intro k tx tx' hrest hlen h
    simp only [signAux, Option.some.injEq] at h
    subst h
    refine ⟨fun j _ => rfl, fun i hki hilen => ?_⟩
    have hnil : tx0.TrimmedCopy.inputs.length ≤ k := by
      have hd := hrest.symm
      rwa [List.drop_eq_nil_iff] at hd
    rw [trimmedCopy_inputs_length] at hnil
    omega
  | cons inp rest2 ih =>
    intro k tx tx' hrest hlen h
    have hk0 : k < tx0.inputs.length := by
      have := drop_ne_nil_lt hrest.symm
      rwa [trimmedCopy_inputs_length] at this
    have hinp : inp = tx0.TrimmedCopy.inputs.getD k default := (drop_cons_head hrest.symm).symm
    have hrest2 : rest2 = tx0.TrimmedCopy.inputs.drop (k + 1) := (drop_cons_tail hrest.symm).symm
    have hinp2 : inp
        = ⟨(tx0.inputs.getD k default).id, (tx0.inputs.getD k default).out, [], []⟩ := by
      rw [hinp, trimmedCopy_inputs_getD hk0]
    simp only [signAux] at h
    rw [setInput_sigNil_trimmed] at h
    cases hg : getOutput (lookupTx prevs (hexEncode inp.id)) inp.out with
    | none => rw [hg] at h; exact absurd h (by simp)
    | some o =>
      rw [hg] at h
      dsimp only at h
      rw [setInput_pubRestore_trimmed] at h
      have hg2 : getOutput (lookupTx prevs (hexEncode (tx0.inputs.getD k default).id))
          (tx0.inputs.getD k default).out = some o := by
        rw [hinp2] at hg
        exact hg
      have hpre := @setInput_pub_eq_trimmedWithPub tx0 prevs k o hg2
      rw [hpre] at h
      obtain ⟨P1, P2⟩ := ih (k + 1) _ tx' hrest2
        (by rw [setInput_inputs, listModify_length]; exact hlen) h
      refine ⟨fun j hj => ?_, fun i hki hilen => ?_⟩
      · rw [P1 j (by omega)]
        rw [setInput_inputs, listModify_getD_ne _ _ _ _ (by omega : j ≠ k)]
      · by_cases hik : i = k
        · subst hik
          rw [P1 i (Or.inl (by omega))]
          rw [setInput_inputs, listModify_getD_eq _ _ _ (by omega)]
          rfl
        · exact P2 i (by omega) hilen

theorem verifyAux_eq (vo : List Nat → Nat × Nat → Nat × Nat → Bool)
    (prevs : List (List Nat × Transaction)) (tx0 : Transaction) :
    ∀ (rest : List TxInput) (k : Nat),
      rest = tx0.inputs.drop k →
      verifyAux vo prevs rest k tx0.TrimmedCopy = verifySpecAux vo prevs tx0 rest k := by
  intro rest
  induction rest with
  | nil => intro k _; rfl
  | cons inp rest2 ih =>
    intro k hrest
    have hk0 : k < tx0.inputs.length := drop_ne_nil_lt hrest.symm
    have hinp : inp = tx0.inputs.getD k default := (drop_cons_head hrest.symm).symm
    have hrest2 : rest2 = tx0.inputs.drop (k + 1) := (drop_cons_tail hrest.symm).symm
    simp only [verifyAux, verifySpecAux]
    rw [setInput_sigNil_trimmed]
    cases hg : getOutput (lookupTx prevs (hexEncode inp.id)) inp.out with
    | none => rfl
    | some o =>
      dsimp only
      have hg2 : getOutput (lookupTx prevs (hexEncode (tx0.inputs.getD k default).id))
          (tx0.inputs.getD k default).out = some o := by
        rw [← hinp]
        exact hg
      have hpre := @setInput_pub_eq_trimmedWithPub tx0 prevs k o hg2
      rw [setInput_pubRestore_trimmed, hpre]
      rw [show sprintfXNewline (trimmedWithPub tx0 prevs k)
            = signingPreimage tx0 prevs k from rfl]
      rw [ih (k + 1) hrest2]

theorem Verify_eq_verifySpec (vo : List Nat → Nat × Nat → Nat × Nat → Bool)
    (tx : Transaction) (prevs : List (List Nat × Transaction)) :
    Transaction.Verify vo tx prevs = verifySpec vo tx prevs := by
  unfold Transaction.Verify verifySpec
  by_cases hc : tx.IsCoinbase
  · rw [if_pos hc, if_pos hc]
  · rw [if_neg hc, if_neg hc]
    by_cases hp : tx.inputs.all fun inp => !(lookupTx prevs (hexEncode inp.id)).id.isEmpty
    · rw [if_pos hp, if_pos hp]
      exact verifyAux_eq vo prevs tx tx.inputs 0 (by rw [List.drop_zero])
    · rw [if_neg hp, if_neg hp]

/-! ## Concrete example data used by witnesses -/

/-- A concrete non-coinbase transaction with one input. -/
def signExTx : Transaction := ⟨[187], [⟨[170], 0, [], [5]⟩], [⟨7, [9]⟩]⟩

/-- A previous-transaction map carrying the output that `signExTx`'s input
references (key `"aa"` is the hex encoding of `[170]`). -/
def signExPrevs : List (List Nat × Transaction) := [([97, 97], ⟨[1], [], [⟨7, [9]⟩]⟩)]

/-- A concrete signing oracle that returns the message itself as `r` and a
fixed byte as `s`. -/
def signExOracle : List Nat → List Nat × List Nat := fun m => (m, [7])

/-- The result of signing `signExTx` with the example oracle. -/
def signExRes : Transaction :=
  (Transaction.Sign signExOracle signExTx signExPrevs).getD zeroTx

/-! ## Claim theorems -/

set_option maxRecDepth 8000

/-- C2: for every (well-formed) transaction `t`, deserializing the
serialization of `t` yields `t` again, and the hash of `t` equals the hash
of `deserialize(serialize(t))`. -/
theorem C2_serialize_roundtrip (sha : List Nat → List Nat) (tx : Transaction)
    (h : tx.wf) :
    DeserializeTransaction tx.Serialize = some tx ∧
    Transaction.Hash sha tx
      = Transaction.Hash sha ((DeserializeTransaction tx.Serialize).getD zeroTx) := by
  have hr := serialize_roundtrip h
  exact ⟨hr, by rw [hr]; rfl⟩

/-- Witness for C2 at a concrete transaction. -/
theorem C2_serialize_roundtrip_witness :
    (⟨[1, 2], [⟨[3], 1, [4], [5]⟩], [⟨7, [8]⟩]⟩ : Transaction).wf ∧
    DeserializeTransaction
        (Transaction.Serialize ⟨[1, 2], [⟨[3], 1, [4], [5]⟩], [⟨7, [8]⟩]⟩)
      = some ⟨[1, 2], [⟨[3], 1, [4], [5]⟩], [⟨7, [8]⟩]⟩ :=
  ⟨by decide, (C2_serialize_roundtrip (fun l => l) _ (by decide)).1⟩

/-- C3: the claim says the Merkle builder returns the recursive-rule root
for every non-empty input; in fact the builder's fixed iteration count and
missing per-level padding make it panic with an index-out-of-range access
on five leaves, an input on which the specification's recursive rule is
perfectly defined.  (`none` is the panic.) -/
theorem C3_merkle_panics_on_five_leaves (hash : List Nat → List Nat) :
    NewMerkleTree hash [[0], [1], [2], [3], [4]] = none ∧
    (merkleRootSpec hash [[0], [1], [2], [3], [4]]).isSome = true := by
  refine ⟨rfl, ?_⟩
  simp [merkleRootSpec, merkleRootSpecAux, pairHash]

/-- C7 counterexample: an affine P-256 point whose `x` coordinate is 5;
`big.Int.Bytes` encodes it in a single byte, so the public key built by
`NewKeyPair` has 33 bytes, not 64. -/
theorem C7_counterexample :
    onCurveP256 5
        31468013646237722594854082025316614106172411895747863909393730389177298123724 ∧
    (NewKeyPairPub 5
        31468013646237722594854082025316614106172411895747863909393730389177298123724).length
      ≠ 64 := by
  constructor
  · decide
  · decide

theorem bigIntBytes_length_eq_32 {m : Nat} (hm : m < 256 ^ 32) :
    (bigIntBytes m).length = 32 ↔ 2 ^ 248 ≤ m := by
  constructor
  · intro h32
    by_contra hlt
    have : (bigIntBytes m).length ≤ 31 :=
      bigIntBytes_length_le (by norm_num at hlt ⊢; omega)
    omega
  · intro hge
    have h1 : (bigIntBytes m).length ≤ 32 := bigIntBytes_length_le hm
    have h2 : ¬((bigIntBytes m).length ≤ 31) := by
      intro hle
      have := lt_of_bigIntBytes_length_le hle
      norm_num at this hge
      omega
    omega

/-- C7 amended: the public key produced by `NewKeyPair` is the
concatenation of the minimal big-endian encodings of `X` and `Y`; each
part is at most 32 bytes, and the key is 64 bytes exactly when both
coordinates are at least `2^248`. -/
theorem C7_amended_pubkey_length (x y : Nat) (h : onCurveP256 x y) :
    NewKeyPairPub x y = bigIntBytes x ++ bigIntBytes y ∧
    (bigIntBytes x).length ≤ 32 ∧ (bigIntBytes y).length ≤ 32 ∧
    ((NewKeyPairPub x y).length = 64 ↔ 2 ^ 248 ≤ x ∧ 2 ^ 248 ≤ y) := by
  obtain ⟨hx, hy, _⟩ := h
  have hp : p256P < 256 ^ 32 := by norm_num [p256P]
  have hx32 : (bigIntBytes x).length ≤ 32 := bigIntBytes_length_le (by omega)
  have hy32 : (bigIntBytes y).length ≤ 32 := bigIntBytes_length_le (by omega)
  refine ⟨rfl, hx32, hy32, ?_⟩
  unfold NewKeyPairPub
  rw [List.length_append]
  rw [← bigIntBytes_length_eq_32 (by omega), ← bigIntBytes_length_eq_32 (by omega)]
  omega

/-- Witness for the amended C7 at the P-256 base point, whose coordinates
both exceed `2^248`, giving the familiar 64-byte key. -/
theorem C7_amended_pubkey_length_witness :
    onCurveP256
        48439561293906451759052585252797914202762949526041747995844080717082404635286
        36134250956749795798585127919587881956611106672985015071877198253568414405109 ∧
    ((NewKeyPairPub
        48439561293906451759052585252797914202762949526041747995844080717082404635286
        36134250956749795798585127919587881956611106672985015071877198253568414405109).length
      = 64 ↔
      2 ^ 248 ≤ 48439561293906451759052585252797914202762949526041747995844080717082404635286 ∧
      2 ^ 248 ≤ 36134250956749795798585127919587881956611106672985015071877198253568414405109) :=
  ⟨by decide,
   (C7_amended_pubkey_length
      48439561293906451759052585252797914202762949526041747995844080717082404635286
      36134250956749795798585127919587881956611106672985015071877198253568414405109
      (by decide)).2.2.2⟩

/-- C8 counterexample: on the malformed address `"0"` (the character `0`
is not in the Base58 alphabet) the decode fails and `ValidateAddress`
panics (`none`); it does not report the address as invalid. -/
theorem C8_counterexample :
    Base58Decode [48] = none ∧ ValidateAddress (fun _ => []) [48] = none ∧
    ValidateAddress (fun _ => []) [48] ≠ some false := by
  refine ⟨by decide, by decide, by decide⟩

/-- C8 amended: `ValidateAddress` returns a boolean exactly when the
Base58 decode succeeds with at least five bytes; on a decode failure (or a
too-short decode) it panics instead of reporting the address invalid. -/
theorem C8_amended_validate_totality (sha : List Nat → List Nat) (address : List Nat) :
    (∃ b, ValidateAddress sha address = some b)
      ↔ ∃ d, Base58Decode address = some d ∧ 5 ≤ d.length := by
  unfold ValidateAddress
  cases hd : Base58Decode address with
  | none => simp
  | some d =>
    simp only [Option.some_bind, Option.some.injEq]
    by_cases h4 : d.length < 4
    · rw [if_pos h4]
      constructor
      · intro ⟨b, hb⟩; exact absurd hb (by simp)
      · intro ⟨d2, hd2, hlen⟩
        subst hd2
        exact absurd hlen (by omega)
    · rw [if_neg h4]
      by_cases h5 : 1 ≤ d.length - 4
      · rw [if_pos h5]
        constructor
        · intro _
          exact ⟨d, rfl, by omega⟩
        · intro _
          exact ⟨_, rfl⟩
      · rw [if_neg h5]
        constructor
        · intro ⟨b, hb⟩; exact absurd hb (by simp)
        · intro ⟨d2, hd2, hlen⟩
          subst hd2
          exact absurd hlen (by omega)

/-- C9: a transaction with exactly one input whose `prev_tx_id` is empty
and whose `out_index` is `-1` passes `Verify` unconditionally: for every
verification oracle, prev-tx map, signature bytes, pub key payload and
outputs, `Verify` returns `true`. -/
theorem C9_coinbase_shape_verifies (vo : List Nat → Nat × Nat → Nat × Nat → Bool)
    (prevs : List (List Nat × Transaction)) (tx : Transaction) (inp : TxInput)
    (hshape : tx.inputs = [inp]) (hid : inp.id = []) (hout : inp.out = -1) :
    Transaction.Verify vo tx prevs = some true := by
  unfold Transaction.Verify
  have hc : tx.IsCoinbase = true := by
    unfold Transaction.IsCoinbase
    rw [hshape]
    simp [hid, hout]
  rw [if_pos hc]

/-- Witness for C9: a coinbase-shaped transaction with junk signature and
pub key passes verification even under an oracle that rejects
everything. -/
theorem C9_coinbase_shape_verifies_witness :
    (⟨[1], [⟨[], -1, [9, 9], [8]⟩], [⟨5, [4]⟩]⟩ : Transaction).inputs
        = [⟨[], -1, [9, 9], [8]⟩] ∧
    Transaction.Verify (fun _ _ _ => false) ⟨[1], [⟨[], -1, [9, 9], [8]⟩], [⟨5, [4]⟩]⟩ []
      = some true :=
  ⟨rfl, C9_coinbase_shape_verifies (fun _ _ _ => false) [] _ _ rfl rfl rfl⟩

/-- C10: whenever `Sign` completes on a transaction (in particular on a
non-coinbase transaction whose referenced previous transactions are all
present), it modifies only the `signature` fields of the inputs: the id,
the outputs, and every input's `prev_tx_id`, `out_index` and `pub_key`
are unchanged. -/
theorem C10_sign_frame (oracle : List Nat → List Nat × List Nat) (tx : Transaction)
    (prevs : List (List Nat × Transaction)) (tx' : Transaction)
    (h : Transaction.Sign oracle tx prevs = some tx') :
    tx'.id = tx.id ∧ tx'.outputs = tx.outputs ∧
    tx'.inputs.length = tx.inputs.length ∧
    ∀ j : Nat,
      (tx'.inputs.getD j default).id = (tx.inputs.getD j default).id ∧
      (tx'.inputs.getD j default).out = (tx.inputs.getD j default).out ∧
      (tx'.inputs.getD j default).pubKey = (tx.inputs.getD j default).pubKey :=
  Sign_frame h

/-- Witness for C10 on a concrete successful (non-coinbase) signing. -/
theorem C10_sign_frame_witness :
    Transaction.Sign signExOracle signExTx signExPrevs = some signExRes ∧
    signExRes.id = signExTx.id ∧ signExRes.outputs = signExTx.outputs :=
  ⟨by decide,
   (C10_sign_frame signExOracle signExTx signExPrevs signExRes (by decide)).1,
   (C10_sign_frame signExOracle signExTx signExPrevs signExRes (by decide)).2.1⟩

theorem hexEncode_length (l : List Nat) : (hexEncode l).length = 2 * l.length := by
  induction l with
  | nil => rfl
  | cons a as ih =>
    simp only [hexEncode, List.flatMap_cons] at ih ⊢
    simp [ih]
    omega

/-- C1 counterexample: with a signing oracle that returns the message
itself, the byte string stored as the signature of input 0 — i.e. the
byte string that was signed — is not the lowercase hex encoding of the
binary serialization of the trimmed copy followed by a newline. -/
theorem C1_counterexample :
    ((Transaction.Sign (fun m => (m, [])) signExTx signExPrevs).map
        fun t => (t.inputs.getD 0 default).signature)
      ≠ some (hexEncode
            (Transaction.Serialize (trimmedWithPub signExTx signExPrevs 0)) ++ [10]) ∧
    (Transaction.Sign (fun m => (m, [])) signExTx signExPrevs).isSome = true := by
  constructor
  · decide
  · decide

/-- C1 (amended): for every non-coinbase transaction, the byte string
signed for input `i` is the lowercase hex encoding of the textual
rendering (`Transaction.String`, which Go's `%x` verb invokes through the
`Stringer` interface) of the trimmed copy with input `i`'s pub key set to
the referenced output's pub key hash, followed by one newline — that is,
`signingPreimage`; and `Verify` checks exactly the same byte strings
(`Verify` equals the `verifySpec` form written with `signingPreimage`). -/
theorem C1_signing_preimage (oracle : List Nat → List Nat × List Nat)
    (vo : List Nat → Nat × Nat → Nat × Nat → Bool) (tx : Transaction)
    (prevs : List (List Nat × Transaction)) :
    (∀ tx', tx.IsCoinbase = false → Transaction.Sign oracle tx prevs = some tx' →
        ∀ i, i < tx.inputs.length →
          (tx'.inputs.getD i default).signature
            = (oracle (signingPreimage tx prevs i)).1
                ++ (oracle (signingPreimage tx prevs i)).2) ∧
    Transaction.Verify vo tx prevs = verifySpec vo tx prevs := by
  constructor
  · intro tx' hnc hsign i hi
    unfold Transaction.Sign at hsign
    rw [if_neg (by simp [hnc])] at hsign
    by_cases hp : tx.inputs.all fun inp => !(lookupTx prevs (hexEncode inp.id)).id.isEmpty
    · rw [if_pos hp] at hsign
      have hm := signAux_messages oracle prevs tx tx.TrimmedCopy.inputs 0 tx tx'
        (List.drop_zero _).symm rfl hsign
      exact hm.2 i (Nat.zero_le i) hi
    · rw [if_neg hp] at hsign
      exact absurd hsign (by simp)
  · exact Verify_eq_verifySpec vo tx prevs

/-- Witness for the amended C1 on a concrete signing. -/
theorem C1_signing_preimage_witness :
    signExTx.IsCoinbase = false ∧
    Transaction.Sign signExOracle signExTx signExPrevs = some signExRes ∧
    (signExRes.inputs.getD 0 default).signature
      = (signExOracle (signingPreimage signExTx signExPrevs 0)).1
          ++ (signExOracle (signingPreimage signExTx signExPrevs 0)).2 :=
  ⟨by decide, by decide,
   (C1_signing_preimage signExOracle (fun _ _ _ => true) signExTx signExPrevs).1
     signExRes (by decide) (by decide) 0 (by decide)⟩

/-- C4: validating the address derived from a public key succeeds, for
every public key and every pair of digest functions that produce bytes
and at least four of them (as SHA-256 and RIPEMD-160 do). -/
theorem C4_derived_address_validates (sha rip : List Nat → List Nat)
    (hsha : ∀ l, ∀ x ∈ sha l, x < 256) (hrip : ∀ l, ∀ x ∈ rip l, x < 256)
    (hlen : ∀ l, 4 ≤ (sha l).length) (pk : List Nat) :
    ValidateAddress sha (Address sha rip pk) = some true :=
  validateAddress_Address sha rip hsha hrip hlen pk

/-- Witness for C4 with concrete digest functions. -/
theorem C4_derived_address_validates_witness :
    (∀ _ : List Nat, ∀ x ∈ ([1, 1, 1, 1] : List Nat), x < 256) ∧
    (∀ _ : List Nat, ∀ x ∈ ([2] : List Nat), x < 256) ∧
    (∀ _ : List Nat, 4 ≤ ([1, 1, 1, 1] : List Nat).length) ∧
    ValidateAddress (fun _ => [1, 1, 1, 1])
        (Address (fun _ => [1, 1, 1, 1]) (fun _ => [2]) [7]) = some true :=
  ⟨fun _ x hx => by simp at hx; omega, fun _ x hx => by simp at hx; omega,
   fun _ => by simp,
   C4_derived_address_validates (fun _ => [1, 1, 1, 1]) (fun _ => [2])
     (fun _ x hx => by simp at hx; omega) (fun _ x hx => by simp at hx; omega)
     (fun _ => by simp) [7]⟩

/-- C5: a coinbase transaction has exactly one input with empty
`prev_tx_id`, `out_index = -1`, and the data payload (hex encoded random
bytes when `data` is empty — 24 of them giving 48 characters) in its
`pub_key`; and exactly one output whose value is the fixed reward 20. -/
theorem C5_coinbase_shape (sha : List Nat → List Nat) (randData toAddr data : List Nat)
    (hrand : randData.length = 24) (tx : Transaction)
    (h : CoinbaseTx sha randData toAddr data = some tx) :
    tx.inputs = [⟨[], -1, [], if data.isEmpty then hexEncode randData else data⟩] ∧
    (data.isEmpty = true → (tx.inputs.getD 0 default).pubKey.length = 48) ∧
    ∃ pkh, tx.outputs = [⟨20, pkh⟩] := by
  unfold CoinbaseTx at h
  cases hN : NewTXOutput 20 toAddr with
  | none => rw [hN] at h; exact absurd h (by simp)
  | some o =>
    rw [hN] at h
    simp only [Option.map_some', Option.some.injEq] at h
    subst h
    refine ⟨rfl, ?_, ?_⟩
    · intro hde
      simp only [hde, if_true, List.getD_cons_zero]
      rw [hexEncode_length, hrand]
    · unfold NewTXOutput at hN
      cases hd : Base58Decode toAddr with
      | none => rw [hd] at hN; exact absurd hN (by simp)
      | some d =>
        rw [hd] at hN
        simp only [Option.some_bind] at hN
        by_cases hlen5 : 1 ≤ d.length - 4
        · rw [if_pos hlen5] at hN
          injection hN with hN
          exact ⟨(d.take (d.length - 4)).drop 1, by rw [← hN]⟩
        · rw [if_neg hlen5] at hN
          exact absurd hN (by simp)

/-- The concrete coinbase transaction used by the C5 witness. -/
def c5Res : Transaction :=
  (CoinbaseTx (fun _ => [9]) (List.replicate 24 255) [49, 49, 49, 49, 49] []).getD zeroTx

/-- Witness for C5 with empty data, so the hex-encoded random bytes are
substituted. -/
theorem C5_coinbase_shape_witness :
    (List.replicate 24 255).length = 24 ∧
    CoinbaseTx (fun _ => [9]) (List.replicate 24 255) [49, 49, 49, 49, 49] [] = some c5Res ∧
    c5Res.inputs = [⟨[], -1, [], hexEncode (List.replicate 24 255)⟩] :=
  ⟨by decide, by decide,
   by
     have h := (C5_coinbase_shape (fun _ => [9]) (List.replicate 24 255)
       [49, 49, 49, 49, 49] [] (by decide) c5Res (by decide)).1
     simpa using h⟩

/-- C6: `NewTransaction` fails (panics, the source's rendering of
`InsufficientFunds`) when the accumulated spendable value is below the
requested amount; when it returns a transaction, that transaction has one
output of the requested amount locked to the recipient's public key hash
and, exactly when the accumulated value exceeds the amount, a change
output of the difference locked to the sender. -/
theorem C6_new_transaction (sha rip : List Nat → List Nat)
    (oracle : List Nat → List Nat × List Nat) (pubKey : List Nat)
    (prevs : List (List Nat × Transaction)) (pkTo : List Nat) (amount acc : Int)
    (validOutputs : List (List Nat × List Int))
    (hsha : ∀ l, ∀ x ∈ sha l, x < 256) (hrip : ∀ l, ∀ x ∈ rip l, x < 256)
    (hlen : ∀ l, 4 ≤ (sha l).length) :
    (acc < amount →
      NewTransaction sha rip oracle pubKey prevs (Address sha rip pkTo) amount acc
        validOutputs = none) ∧
    ∀ tx, NewTransaction sha rip oracle pubKey prevs (Address sha rip pkTo) amount acc
        validOutputs = some tx →
      tx.outputs
        = ⟨amount, PublicKeyHash sha rip pkTo⟩ ::
            (if amount < acc then [⟨acc - amount, PublicKeyHash sha rip pubKey⟩] else []) := by
  constructor
  · intro hlt
    unfold NewTransaction
    rw [if_pos hlt]
  · intro tx h
    unfold NewTransaction at h
    by_cases hlt : acc < amount
    · rw [if_pos hlt] at h
      exact absurd h (by simp)
    · rw [if_neg hlt] at h
      cases hb : buildInputs pubKey validOutputs with
      | none => rw [hb] at h; exact absurd h (by simp)
      | some inputs =>
        rw [hb] at h
        simp only [Option.some_bind] at h
        rw [NewTXOutput_Address sha rip hsha hrip hlen amount pkTo] at h
        simp only [Option.some_bind] at h
        by_cases hch : amount < acc
        · rw [if_pos hch] at h
          rw [NewTXOutput_Address sha rip hsha hrip hlen (acc - amount) pubKey] at h
          simp only [Option.map_some', Option.some_bind] at h
          have hf := Sign_frame h
          rw [hf.2.1, if_pos hch]
        · rw [if_neg hch] at h
          simp only [Option.some_bind] at h
          have hf := Sign_frame h
          rw [hf.2.1, if_neg hch]

/-- Concrete digest functions and data for the C6 witness. -/
def c6Sha : List Nat → List Nat := fun _ => [1, 1, 1, 1]

def c6Rip : List Nat → List Nat := fun _ => [2]

def c6Prevs : List (List Nat × Transaction) := [([97, 97], ⟨[5], [], [⟨1, [6]⟩]⟩)]

def c6Res : Transaction :=
  (NewTransaction c6Sha c6Rip (fun _ => ([1], [2])) [3] c6Prevs
    (Address c6Sha c6Rip [9]) 5 7 [([97, 97], [0])]).getD zeroTx

/-- Witness for C6 on a concrete successful send of 5 with 7 accumulated,
producing the payment output and a change output of 2. -/
theorem C6_new_transaction_witness :
    NewTransaction c6Sha c6Rip (fun _ => ([1], [2])) [3] c6Prevs
        (Address c6Sha c6Rip [9]) 5 7 [([97, 97], [0])] = some c6Res ∧
    c6Res.outputs
      = ⟨5, PublicKeyHash c6Sha c6Rip [9]⟩ ::
          (if (5 : Int) < 7 then [⟨7 - 5, PublicKeyHash c6Sha c6Rip [3]⟩] else []) :=
  ⟨by decide,
   (C6_new_transaction c6Sha c6Rip (fun _ => ([1], [2])) [3] c6Prevs [9] 5 7
       [([97, 97], [0])]
       (fun _ x hx => by simp [c6Sha] at hx; omega)
       (fun _ x hx => by simp [c6Rip] at hx; omega)
       (fun _ => by simp [c6Sha])).2 c6Res (by decide)⟩

end Blockchainz
